import Mathlib

/-!
Shallow embedding of the image-preview synchronization engine of
`src/vimagepreviewer.cpp` (class `VImagePreviewer`), together with proofs of
the behavioural properties stated in the design document.

Modelling conventions:
* A document character is `MChar`; `MChar.obj` is `QChar::ObjectReplacementCharacter`,
  `MChar.space` a whitespace character, `bang`, `lbrack`, `rbrack`, `lparen`,
  `rparen` the characters of the markdown image syntax, `other n` any other
  non-whitespace character.  A `QString` is a `List MChar`.
* A `QTextBlock` is a `Block`: its text plus the image char format (resource
  name and `ImagePath` property) attached to its first object-replacement
  character, when that character carries one (`fmt`).
* The external world (`QFileInfo::exists`, whether `QImage` can decode the file,
  which pixmap a path decodes to, and the `QFileInfo`/`QUrl` path resolution of
  `fetchImagePathToPreview`) is an `Env` of pure functions.
* The engine state `PState` holds the document block list, the image cache
  `m_imageCache` (association list, first match wins, like `QHash::find`),
  the document resources added by `QTextDocument::addResource`, the document
  modified flag, the member booleans of `VImagePreviewer`, the debounce-timer
  flag, and two traces recording the side effects relevant to the claims:
  download requests issued through `VDownloader::download` and synchronous
  decode attempts (`QImage(path)` constructions).
* Editing primitives (`insertBlock`/`insertImage`, `removeSelectedText`,
  `deleteChar`, `setCharFormat`) mark a `QTextDocument` as modified; the C++
  code brackets most of them with `isModified()`/`setModified(saved)`, which we
  reproduce literally.  `QTextCursor::setCharFormat` inside
  `updateFormatInPreviewBlock` is not bracketed that way in the source, so that
  primitive leaves the modified flag set.
* `removeBlock` uses `QTextCursor::BlockUnderCursor`, which for the first block
  of a document has no leading block separator to select: removing the
  selection then merely empties the first block instead of deleting it.  The
  scan loops model this with `emptyBlock`.
* The document signals (`statusChanged`, `contentsChange`) delivered to
  external observers are not modelled; the debounce timer restarts performed
  explicitly by the engine are recorded in `timerActive`.
-/

namespace VPreview

/-- A document character. `obj` is `QChar::ObjectReplacementCharacter` (the
image placeholder), `space` any whitespace character, the next five are the
markdown image-syntax characters, `other n` any other visible character. -/
inductive MChar where
  | obj
  | space
  | bang
  | lbrack
  | rbrack
  | lparen
  | rparen
  | other (n : Nat)
deriving DecidableEq

/-- `QChar::isSpace`: of our alphabet only `space` is whitespace (the object
replacement character U+FFFC is not whitespace). -/
def MChar.isSpace : MChar → Bool
  | .space => true
  | _ => false

/-- `QString::trimmed`: strip leading and trailing whitespace. -/
def trimmed (t : List MChar) : List MChar :=
  ((t.dropWhile MChar.isSpace).reverse.dropWhile MChar.isSpace).reverse

/-- Attempt to match the regular expression of `fetchImageUrlToPreview`,
`\!\[[^\]]*\]\(([^\)]+)\)`, starting exactly at the head of `t`; return the
first capture group on success.  Because `[^\]]*` cannot cross a `]` and
`[^\)]+` cannot cross a `)`, the greedy QRegExp match at a fixed start
position is exactly this deterministic parse. -/
def matchImageAt : List MChar → Option (List MChar)
  | MChar.bang :: MChar.lbrack :: rest =>
    match rest.dropWhile (fun c => !decide (c = MChar.rbrack)) with
    | MChar.rbrack :: MChar.lparen :: rest3 =>
      match rest3.takeWhile (fun c => !decide (c = MChar.rparen)),
            rest3.dropWhile (fun c => !decide (c = MChar.rparen)) with
      | r :: ref, MChar.rparen :: _ => some (r :: ref)
      | _, _ => none
    | _ => none
  | _ => none

/-- The positions of `t` at which the image regular expression matches.
`QRegExp::indexIn` is the head of this list, `QRegExp::lastIndexIn` its last
element (`-1`, i.e. `none`, when it is empty). -/
def matchPositions (t : List MChar) : List Nat :=
  (List.range t.length).filter (fun i => (matchImageAt (t.drop i)).isSome)

/-- `VImagePreviewer::fetchImageUrlToPreview`: run `indexIn` and `lastIndexIn`
of the image regular expression; if both find a match at the same position,
return the captured reference, otherwise return the empty string. -/
def fetchImageUrlToPreview (t : List MChar) : List MChar :=
  match (matchPositions t).head?, (matchPositions t).getLast? with
  | some i, some j =>
    if i = j then
      match matchImageAt (t.drop i) with
      | some ref => ref
      | none => []
    else []
  | _, _ => []

/-- The external collaborators of the engine, as pure functions:
`fileExists p` is `QFileInfo(p).exists()`, `decodeOk p` whether `QImage(p)`
decodes successfully, `localImage p` the pixmap (an opaque id) it decodes to,
and `resolve url` the `QFileInfo`/`QUrl` path resolution performed by
`fetchImagePathToPreview` on a non-empty extracted url. -/
structure Env where
  fileExists : List MChar → Bool
  decodeOk : List MChar → Bool
  localImage : List MChar → Nat
  resolve : List MChar → List MChar

/-- `VImagePreviewer::fetchImagePathToPreview`: extract the url; an empty url
is returned unchanged, a non-empty one goes through the external
`QFileInfo`/`QUrl` resolution. -/
def fetchImagePathToPreview (env : Env) (t : List MChar) : List MChar :=
  let url := fetchImageUrlToPreview t
  if url = [] then url else env.resolve url

/-- The image char format of a preview block: resource `name` plus the
`ImagePath` property. -/
structure ImgFmt where
  name : List MChar
  path : List MChar
deriving DecidableEq

/-- A `QTextBlock`: its text and, when its first object-replacement character
carries an image char format, that format. -/
structure Block where
  text : List MChar
  fmt : Option ImgFmt
deriving DecidableEq

/-- The block left behind when `removeBlock` is applied to the first block of
the document: `BlockUnderCursor` has no leading separator to select there, so
the block is emptied rather than removed. -/
def emptyBlock : Block := { text := [], fmt := none }

/-- `VImagePreviewer::isImagePreviewBlock`: the trimmed text is exactly one
object replacement character. -/
def isImagePreviewBlock (b : Block) : Bool :=
  decide (trimmed b.text = [MChar.obj])

/-- `VImagePreviewer::fetchFormatFromPreviewBlock`: locate the first object
replacement character; its char format (if it is an image format) is the
block's `fmt`; with no such character the result is the invalid format. -/
def fetchFormatFromPreviewBlock (b : Block) : Option ImgFmt :=
  if MChar.obj ∈ b.text then b.fmt else none

/-- `VImagePreviewer::fetchImagePathFromPreviewBlock`: the `ImagePath`
property of the fetched format, or the empty string for an invalid format. -/
def fetchImagePathFromPreviewBlock (b : Block) : List MChar :=
  match fetchFormatFromPreviewBlock b with
  | some f => f.path
  | none => []

/-- `VImagePreviewer::isValidImagePreviewBlock` with the preceding block made
explicit (`none` when the block is the first of the document). -/
def isValidImagePreviewBlock (env : Env) (prev : Option Block) (b : Block) : Bool :=
  isImagePreviewBlock b &&
    match prev with
    | some pb =>
      let p := fetchImagePathToPreview env pb.text
      !decide (p = []) && decide (fetchImagePathFromPreviewBlock b = p)
    | none => false

/-- First-match association-list lookup, the behaviour of `m_imageCache.find`. -/
def cacheLookup (cache : List (List MChar × List MChar)) (k : List MChar) :
    Option (List MChar) :=
  match cache with
  | [] => none
  | kv :: rest => if kv.1 = k then some kv.2 else cacheLookup rest k

/-- The engine state: document, cache, document resources, modified flag, the
member booleans of `VImagePreviewer`, the debounce-timer flag, and the traces
of issued downloads and synchronous decode attempts. -/
structure PState where
  doc : List Block
  cache : List (List MChar × List MChar)
  resources : List (List MChar × Nat)
  modified : Bool
  enablePreview : Bool
  isPreviewing : Bool
  requestCearBlocks : Bool
  requestRefreshBlocks : Bool
  timerActive : Bool
  downloads : List (List MChar)
  decodes : List (List MChar)
deriving DecidableEq

/-- `VImagePreviewer::removeBlock`, state part: the text removal marks the
document modified, then `setModified(saved)` restores the flag (the removal
itself is performed by the callers on the block list). -/
def removeBlockState (s : PState) : PState :=
  let saved := s.modified
  let s1 := { s with modified := true }
  { s1 with modified := saved }

/-- The indices (ascending) at which the text holds an object replacement
character — the `replacementChars` vector collected by
`clearCorruptedImagePreviewBlock`. -/
def objPositions : List MChar → List Nat
  | [] => []
  | c :: t =>
    if c = MChar.obj then 0 :: (objPositions t).map (· + 1)
    else (objPositions t).map (· + 1)

/-- The `onlySpaces` flag of `clearCorruptedImagePreviewBlock`: no character
other than object replacement characters and whitespace occurs. -/
def onlySpacesB (t : List MChar) : Bool :=
  t.all (fun c => decide (c = MChar.obj) || MChar.isSpace c)

/-- `VImagePreviewer::clearCorruptedImagePreviewBlock`: when object
replacement characters are mixed with non-whitespace text, delete them (from
the last recorded position to the first, inside one edit block) and restore
the modified flag; otherwise leave the block alone. -/
def clearCorruptedImagePreviewBlock (s : PState) (b : Block) : Block × PState :=
  if !onlySpacesB b.text && !decide (objPositions b.text = []) then
    let saved := s.modified
    let t := (objPositions b.text).foldr (fun p acc => acc.eraseIdx p) b.text
    let s1 := { s with modified := true }
    ({ text := t, fmt := b.fmt }, { s1 with modified := saved })
  else (b, s)

/-- `VImagePreviewer::imagePathToCacheResourceName`: the identity. -/
def imagePathToCacheResourceName (p : List MChar) : List MChar := p

/-- `VImagePreviewer::imageCacheResourceName`: cache hit returns the cached
resource name; otherwise an existing local file is decoded synchronously (the
attempt is recorded in `decodes`) and on success registered as a document
resource and cached, while a non-existing path triggers an asynchronous
download (recorded in `downloads`) and, the image still being null, the empty
name is returned. -/
def imageCacheResourceName (env : Env) (s : PState) (p : List MChar) :
    List MChar × PState :=
  match cacheLookup s.cache p with
  | some name => (name, s)
  | none =>
    if env.fileExists p then
      if env.decodeOk p then
        let name := imagePathToCacheResourceName p
        (name,
         { s with
            decodes := p :: s.decodes,
            resources := (name, env.localImage p) :: s.resources,
            cache := (p, name) :: s.cache })
      else ([], { s with decodes := p :: s.decodes })
    else
      ([], { s with downloads := p :: s.downloads })

/-- `VImagePreviewer::insertImagePreviewBlock`: resolve the path to a cache
resource name; on failure insert nothing; on success insert after the current
block a new block holding exactly one object replacement character tagged with
the image format, restoring the modified flag around the edit. -/
def insertImagePreviewBlock (env : Env) (s : PState) (p : List MChar) :
    Option Block × PState :=
  let r := imageCacheResourceName env s p
  if r.1 = [] then (none, r.2)
  else
    let saved := r.2.modified
    let s1 := { r.2 with modified := true }
    let s2 := { s1 with modified := saved }
    (some { text := [MChar.obj], fmt := some { name := r.1, path := p } }, s2)

/-- `VImagePreviewer::updateImagePreviewBlock`: no-op when the stored
`ImagePath` already equals the new path; otherwise resolve the new path — on
failure remove the preview block (`removeBlock`), on success rewrite the image
format in place through `updateFormatInPreviewBlock`, whose
`QTextCursor::setCharFormat` marks the document modified (the source does not
restore the flag on this path). -/
def updateImagePreviewBlock (env : Env) (s : PState) (b : Block) (p : List MChar) :
    Option Block × PState :=
  let curPath := fetchImagePathFromPreviewBlock b
  if curPath = p then (some b, s)
  else
    let r := imageCacheResourceName env s p
    if r.1 = [] then (none, removeBlockState r.2)
    else
      (some { text := b.text, fmt := some { name := r.1, path := p } },
       { r.2 with modified := true })

/-- The block walk of `VImagePreviewer::clearAllImagePreviewBlocks`: remove
every image preview block (the first document block is emptied instead, see
`emptyBlock`) and run the corruption cleanup on every other block.  `atStart`
records whether the walk still stands on the first block of the document. -/
def clearAllLoop (s : PState) (atStart : Bool) : List Block → PState × List Block
  | [] => (s, [])
  | b :: rest =>
    if isImagePreviewBlock b then
      if atStart then
        let r := clearAllLoop (removeBlockState s) false rest
        (r.1, emptyBlock :: r.2)
      else
        clearAllLoop (removeBlockState s) false rest
    else
      let c := clearCorruptedImagePreviewBlock s b
      let r := clearAllLoop c.2 false rest
      (r.1, c.1 :: r.2)

/-- `VImagePreviewer::clearAllImagePreviewBlocks`: walk the whole document
removing preview blocks and stripping corruption, restoring the modified flag
afterwards. -/
def clearAllImagePreviewBlocks (s : PState) : PState :=
  let saved := s.modified
  let r := clearAllLoop s true s.doc
  { r.1 with doc := r.2, modified := saved }

/-- `VImagePreviewer::refresh`: defer through `m_requestRefreshBlocks` while a
scan is running; otherwise stop the timer, clear the image cache, clear all
preview blocks and restart the timer. -/
def refresh (s : PState) : PState :=
  if s.isPreviewing then { s with requestRefreshBlocks := true }
  else
    let s1 := { s with timerActive := false, cache := [] }
    let s2 := clearAllImagePreviewBlocks s1
    { s2 with timerActive := true }

/-- `VImagePreviewer::disableImagePreview`: clear `m_enablePreview`; while a
scan is running only latch `m_requestCearBlocks`, otherwise clear all preview
blocks at once. -/
def disableImagePreview (s : PState) : PState :=
  let s1 := { s with enablePreview := false }
  if s1.isPreviewing then { s1 with requestCearBlocks := true }
  else clearAllImagePreviewBlocks s1

/-- `VImagePreviewer::enableImagePreview`: set `m_enablePreview` and, when the
global configuration permits previewing, restart the debounce timer. -/
def enableImagePreview (globalEnable : Bool) (s : PState) : PState :=
  let s1 := { s with enablePreview := true }
  if globalEnable then { s1 with timerActive := true } else s1

/-- `VImagePreviewer::handleContentChange`: ignore a no-op delta, otherwise
restart the debounce timer. -/
def handleContentChange (charsRemoved charsAdded : Nat) (s : PState) : PState :=
  if charsRemoved = 0 ∧ charsAdded = 0 then s
  else { s with timerActive := true }

/-- `VImagePreviewer::imageDownloaded`: decode the downloaded bytes (`dataOk`
tells whether `QImage::fromData` succeeds, `img` which pixmap it yields); on
failure drop silently; on success drop when the url is already cached,
otherwise register the resource, insert the cache entry and restart the
debounce timer. -/
def imageDownloaded (s : PState) (dataOk : Bool) (img : Nat) (url : List MChar) :
    PState :=
  if dataOk then
    match cacheLookup s.cache url with
    | some _ => s
    | none =>
      let name := imagePathToCacheResourceName url
      { s with timerActive := true,
               resources := (name, img) :: s.resources,
               cache := (url, name) :: s.cache }
  else s

/-- The block walk of `VImagePreviewer::previewImages`, with the block cursor
rendered functionally: `prev` is the block preceding the cursor (`none` at the
document start) and the returned list the final form of the blocks from the
cursor onwards.  The body inlines `previewImageOfOneBlock`: an image preview
block is removed when invalid (`emptyBlock` when it is the document's first
block) and skipped otherwise; any other block is first run through the
corruption cleanup, then, when it references an image, the following block is
updated in place if it is already a preview block and otherwise a new preview
block is inserted after it.  Each iteration re-checks `m_enablePreview`.
The loop body is written once for a final block (`[b]`, where the successor is
the invalid block, so the walk ends after this iteration) and once for a block
with a successor — the two cases of the same C++ loop body. -/
def scanCore (env : Env) (s : PState) (prev : Option Block) :
    List Block → PState × List Block
  | [] => (s, [])
  | [b] =>
    if !s.enablePreview then (s, [b])
    else if isImagePreviewBlock b then
      if isValidImagePreviewBlock env prev b then (s, [b])
      else
        match prev with
        | none => (removeBlockState s, [emptyBlock])
        | some _ => (removeBlockState s, [])
    else
      match clearCorruptedImagePreviewBlock s b with
      | (b2, s1) =>
        if fetchImagePathToPreview env b2.text = [] then (s1, [b2])
        else
          match insertImagePreviewBlock env s1 (fetchImagePathToPreview env b2.text) with
          | (some ab, s2) => (s2, [b2, ab])
          | (none, s2) => (s2, [b2])
  | b :: nb :: rest2 =>
    if !s.enablePreview then (s, b :: nb :: rest2)
    else if isImagePreviewBlock b then
      if isValidImagePreviewBlock env prev b then
        match scanCore env s (some b) (nb :: rest2) with
        | (s2, tail) => (s2, b :: tail)
      else
        match prev with
        | none =>
          match scanCore env (removeBlockState s) (some emptyBlock) (nb :: rest2) with
          | (s2, tail) => (s2, emptyBlock :: tail)
        | some _ => scanCore env (removeBlockState s) prev (nb :: rest2)
    else
      match clearCorruptedImagePreviewBlock s b with
      | (b2, s1) =>
        if fetchImagePathToPreview env b2.text = [] then
          match scanCore env s1 (some b2) (nb :: rest2) with
          | (s2, tail) => (s2, b2 :: tail)
        else if isImagePreviewBlock nb then
          match updateImagePreviewBlock env s1 nb (fetchImagePathToPreview env b2.text) with
          | (some nb2, s2) =>
            match scanCore env s2 (some nb2) rest2 with
            | (s3, tail) => (s3, b2 :: nb2 :: tail)
          | (none, s2) =>
            match scanCore env s2 (some b2) rest2 with
            | (s3, tail) => (s3, b2 :: tail)
        else
          match insertImagePreviewBlock env s1 (fetchImagePathToPreview env b2.text) with
          | (some ab, s2) =>
            match scanCore env s2 (some ab) (nb :: rest2) with
            | (s3, tail) => (s3, b2 :: ab :: tail)
          | (none, s2) =>
            match scanCore env s2 (some b2) (nb :: rest2) with
            | (s3, tail) => (s3, b2 :: tail)

/-- `VImagePreviewer::previewImages`: re-entrancy guard on `m_isPreviewing`,
the block walk, then release of the guard and servicing of the latched clear
and refresh requests. -/
def previewImages (env : Env) (s : PState) : PState :=
  if s.isPreviewing then s
  else
    let s1 := { s with isPreviewing := true }
    let r := scanCore env s1 none s1.doc
    let s2 := { r.1 with doc := r.2, isPreviewing := false }
    let s3 := if s2.requestCearBlocks then
                clearAllImagePreviewBlocks { s2 with requestCearBlocks := false }
              else s2
    let s4 := if s3.requestRefreshBlocks then
                refresh { s3 with requestRefreshBlocks := false }
              else s3
    s4

/-- `VImagePreviewer::timerTimeout`: honour the global configuration flag and
the member enable flag, then scan. -/
def timerTimeout (env : Env) (globalEnable : Bool) (s : PState) : PState :=
  if !globalEnable then
    if s.enablePreview then disableImagePreview s else s
  else if !s.enablePreview then s
  else previewImages env s

/-- A configuration of the scan loop after a bounded number of iterations:
state, block preceding the cursor, blocks already walked (in final form) and
blocks still ahead of the cursor. -/
structure ScanMid where
  st : PState
  prev : Option Block
  emitted : List Block
  todo : List Block

/-- The walk of `previewImages` stopped after at most `n` iterations — the
same loop body as `scanCore`, exposing the intermediate configuration so that
a re-entrant call (such as `disableImagePreview` triggered by a signal during
a document edit) can be interposed mid-scan. -/
def scanCoreN (env : Env) :
    Nat → PState → Option Block → List Block → ScanMid
  | 0, s, prev, todo => { st := s, prev := prev, emitted := [], todo := todo }
  | Nat.succ n, s, prev, todo =>
    match todo with
    | [] => { st := s, prev := prev, emitted := [], todo := [] }
    | b :: rest =>
      if !s.enablePreview then
        { st := s, prev := prev, emitted := [], todo := b :: rest }
      else if isImagePreviewBlock b then
        if isValidImagePreviewBlock env prev b then
          let r := scanCoreN env n s (some b) rest
          { r with emitted := b :: r.emitted }
        else
          match prev with
          | none =>
            let r := scanCoreN env n (removeBlockState s) (some emptyBlock) rest
            { r with emitted := emptyBlock :: r.emitted }
          | some _ => scanCoreN env n (removeBlockState s) prev rest
      else
        match clearCorruptedImagePreviewBlock s b with
        | (b2, s1) =>
          if fetchImagePathToPreview env b2.text = [] then
            let r := scanCoreN env n s1 (some b2) rest
            { r with emitted := b2 :: r.emitted }
          else
            match rest with
            | nb :: rest2 =>
              if isImagePreviewBlock nb then
                match updateImagePreviewBlock env s1 nb (fetchImagePathToPreview env b2.text) with
                | (some nb2, s2) =>
                  let r := scanCoreN env n s2 (some nb2) rest2
                  { r with emitted := b2 :: nb2 :: r.emitted }
                | (none, s2) =>
                  let r := scanCoreN env n s2 (some b2) rest2
                  { r with emitted := b2 :: r.emitted }
              else
                match insertImagePreviewBlock env s1 (fetchImagePathToPreview env b2.text) with
                | (some ab, s2) =>
                  let r := scanCoreN env n s2 (some ab) (nb :: rest2)
                  { r with emitted := b2 :: ab :: r.emitted }
                | (none, s2) =>
                  let r := scanCoreN env n s2 (some b2) (nb :: rest2)
                  { r with emitted := b2 :: r.emitted }
            | [] =>
              match insertImagePreviewBlock env s1 (fetchImagePathToPreview env b2.text) with
              | (some ab, s2) =>
                { st := s2, prev := some ab, emitted := [b2, ab], todo := [] }
              | (none, s2) =>
                { st := s2, prev := some b2, emitted := [b2], todo := [] }

/-- A run of `previewImages` during which `disableImagePreview` is invoked
after `n` loop iterations (the way a re-entrant signal interrupts the scan):
the walk up to the interruption point, the disable call, the resumed loop
(which stops at its next `m_enablePreview` check) and the usual epilogue of
`previewImages`. -/
def previewImagesWithDisableAfter (env : Env) (n : Nat) (s : PState) : PState :=
  if s.isPreviewing then s
  else
    let s1 := { s with isPreviewing := true }
    let m := scanCoreN env n s1 none s1.doc
    let sMid := disableImagePreview m.st
    let r := scanCore env sMid m.prev m.todo
    let s2 := { r.1 with doc := m.emitted ++ r.2, isPreviewing := false }
    let s3 := if s2.requestCearBlocks then
                clearAllImagePreviewBlocks { s2 with requestCearBlocks := false }
              else s2
    let s4 := if s3.requestRefreshBlocks then
                refresh { s3 with requestRefreshBlocks := false }
              else s3
    s4

/-- The two engine operations that touch the image cache: a synchronous
resolution (`imageCacheResourceName`) and a download completion
(`imageDownloaded`). -/
inductive CacheOp where
  | resolve (p : List MChar)
  | downloaded (ok : Bool) (img : Nat) (url : List MChar)

/-- Apply one cache-touching engine operation to the state. -/
def engineStep (env : Env) (s : PState) : CacheOp → PState
  | .resolve p => (imageCacheResourceName env s p).2
  | .downloaded ok img url => imageDownloaded s ok img url

/-! Specification-side predicates. -/

/-- A path resolves (now or at any later point of a scan): it is already
cached, or it is an existing local file whose decode succeeds. -/
def Resolvable (env : Env) (cache : List (List MChar × List MChar))
    (p : List MChar) : Prop :=
  (cacheLookup cache p).isSome = true ∨
    (env.fileExists p = true ∧ env.decodeOk p = true)

/-- Well-formedness of the image cache: every entry maps a non-empty path to
the resource name produced by `imagePathToCacheResourceName`, i.e. itself. -/
def CacheWF (cache : List (List MChar × List MChar)) : Prop :=
  ∀ kv ∈ cache, kv.2 = kv.1 ∧ kv.1 ≠ []

/-- The corruption cleanup leaves the block alone: it has no object
replacement character, or nothing but such characters and whitespace. -/
def CorruptFree (b : Block) : Prop :=
  objPositions b.text = [] ∨ onlySpacesB b.text = true

/-- Number of cache entries stored under key `k`. -/
def countKey (cache : List (List MChar × List MChar)) (k : List MChar) : Nat :=
  cache.countP (fun kv => decide (kv.1 = k))

/-- Obligation of a block `b` towards its predecessor `prev`: if `b` is an
image preview block it is not orphaned — the preceding block exists, is a
source block (not itself a preview block), references an image, and `b`'s
stored path matches that reference. -/
def ArtifactOk (env : Env) (prev : Option Block) (b : Block) : Prop :=
  isImagePreviewBlock b = true →
    ∃ pb, prev = some pb ∧ isImagePreviewBlock pb = false ∧
      fetchImagePathToPreview env pb.text ≠ [] ∧
      fetchImagePathFromPreviewBlock b = fetchImagePathToPreview env pb.text

/-- Obligation of a source block towards its successors: if it references an
image whose path resolves, the block immediately after it is an image preview
block storing exactly that path. -/
def SourceOk (env : Env) (cache : List (List MChar × List MChar))
    (b : Block) (rest : List Block) : Prop :=
  isImagePreviewBlock b = false →
    fetchImagePathToPreview env b.text ≠ [] →
    Resolvable env cache (fetchImagePathToPreview env b.text) →
    ∃ art rest2, rest = art :: rest2 ∧ isImagePreviewBlock art = true ∧
      fetchImagePathFromPreviewBlock art = fetchImagePathToPreview env b.text

/-- The post-scan document invariant, read along the block list with `prev`
the block preceding the current position. -/
def InvariantDoc (env : Env) (cache : List (List MChar × List MChar)) :
    Option Block → List Block → Prop
  | _, [] => True
  | prev, b :: rest =>
    ArtifactOk env prev b ∧ SourceOk env cache b rest ∧
      InvariantDoc env cache (some b) rest

/-- Equality of the `VImagePreviewer` member flags, the document and the timer
between two states — everything a cache resolution or a block-local edit
leaves untouched. -/
def FlagsEq (s t : PState) : Prop :=
  t.enablePreview = s.enablePreview ∧ t.isPreviewing = s.isPreviewing ∧
    t.requestCearBlocks = s.requestCearBlocks ∧
    t.requestRefreshBlocks = s.requestRefreshBlocks ∧
    t.doc = s.doc ∧ t.timerActive = s.timerActive

/-! Basic lemmas about trimming, object positions and the cache. -/

theorem mem_of_mem_trimmed {x : MChar} {t : List MChar} (h : x ∈ trimmed t) :
    x ∈ t := by
  unfold trimmed at h
  rw [List.mem_reverse] at h
  have h1 : x ∈ (t.dropWhile MChar.isSpace).reverse :=
    (List.dropWhile_sublist _).subset h
  rw [List.mem_reverse] at h1
  exact (List.dropWhile_sublist _).subset h1

theorem mem_trimmed_or_space {x : MChar} {t : List MChar} (h : x ∈ t) :
    x ∈ trimmed t ∨ MChar.isSpace x = true := by
  by_cases hs : MChar.isSpace x = true
  · exact Or.inr hs
  · left
    have h1 : x ∈ t.dropWhile MChar.isSpace := by
      rcases List.mem_append.1 (by
        rw [List.takeWhile_append_dropWhile (p := MChar.isSpace)]; exact h) with h2 | h2
      · exact absurd (List.mem_takeWhile_imp h2) hs
      · exact h2
    have h2 : x ∈ (t.dropWhile MChar.isSpace).reverse := List.mem_reverse.2 h1
    have h3 : x ∈ (t.dropWhile MChar.isSpace).reverse.dropWhile MChar.isSpace := by
      rcases List.mem_append.1 (by
        rw [List.takeWhile_append_dropWhile (p := MChar.isSpace)]; exact h2) with h4 | h4
      · exact absurd (List.mem_takeWhile_imp h4) hs
      · exact h4
    exact List.mem_reverse.2 h3

theorem dropWhile_append_of_all {p : MChar → Bool} {l r : List MChar}
    (h : ∀ c ∈ l, p c = true) :
    (l ++ r).dropWhile p = r.dropWhile p := by
  induction l with
  | nil => rfl
  | cons c l ih =>
    rw [List.cons_append, List.dropWhile_cons, if_pos (h c (List.mem_cons_self c l))]
    exact ih fun d hd => h d (List.mem_cons_of_mem c hd)

theorem trimmed_spaces_obj {l1 l2 : List MChar}
    (h1 : ∀ c ∈ l1, MChar.isSpace c = true) (h2 : ∀ c ∈ l2, MChar.isSpace c = true) :
    trimmed (l1 ++ MChar.obj :: l2) = [MChar.obj] := by
  unfold trimmed
  rw [dropWhile_append_of_all h1, List.dropWhile_cons]
  simp only [MChar.isSpace, if_false, Bool.false_eq_true, ite_false]
  rw [List.reverse_cons, dropWhile_append_of_all
    (fun c hc => h2 c (List.mem_reverse.1 hc)), List.dropWhile_cons]
  simp [MChar.isSpace]

theorem countP_obj_trimmed (t : List MChar) :
    (trimmed t).countP (fun c => decide (c = MChar.obj)) =
      t.countP (fun c => decide (c = MChar.obj)) := by
  have key : ∀ u : List MChar,
      (u.dropWhile MChar.isSpace).countP (fun c => decide (c = MChar.obj)) =
        u.countP (fun c => decide (c = MChar.obj)) := by
    intro u
    conv_rhs => rw [← List.takeWhile_append_dropWhile (p := MChar.isSpace) (l := u)]
    rw [List.countP_append]
    have hz : (u.takeWhile MChar.isSpace).countP (fun c => decide (c = MChar.obj)) = 0 := by
      rw [List.countP_eq_zero]
      intro c hc
      have := List.mem_takeWhile_imp hc
      cases c <;> simp_all [MChar.isSpace]
    omega
  unfold trimmed
  rw [List.countP_reverse, key, List.countP_reverse, key]

theorem objPositions_eq_nil_iff {t : List MChar} :
    objPositions t = [] ↔ MChar.obj ∉ t := by
  induction t with
  | nil => simp [objPositions]
  | cons c t ih =>
    unfold objPositions
    by_cases hc : c = MChar.obj
    · subst hc; simp
    · simp only [if_neg hc, List.map_eq_nil_iff, List.mem_cons]
      constructor
      · rintro h (h1 | h1)
        · exact hc h1.symm
        · exact (ih.1 h) h1
      · intro h
        exact ih.2 fun hm => h (Or.inr hm)

theorem foldr_eraseIdx_map_succ (ps : List Nat) (c : MChar) (t : List MChar) :
    (ps.map (· + 1)).foldr (fun p acc => acc.eraseIdx p) (c :: t) =
      c :: ps.foldr (fun p acc => acc.eraseIdx p) t := by
  induction ps with
  | nil => rfl
  | cons p ps ih =>
    simp only [List.map_cons, List.foldr_cons, ih, List.eraseIdx]

theorem objPositions_strip (t : List MChar) :
    (objPositions t).foldr (fun p acc => acc.eraseIdx p) t =
      t.filter (fun c => !decide (c = MChar.obj)) := by
  induction t with
  | nil => rfl
  | cons c t ih =>
    unfold objPositions
    by_cases hc : c = MChar.obj
    · subst hc
      rw [if_pos rfl, List.foldr_cons, foldr_eraseIdx_map_succ, ih]
      simp [List.filter]
    · rw [if_neg hc, foldr_eraseIdx_map_succ, ih]
      simp [List.filter, hc]

theorem cacheLookup_mem {cache : List (List MChar × List MChar)}
    {k v : List MChar} (h : cacheLookup cache k = some v) : (k, v) ∈ cache := by
  induction cache with
  | nil => simp [cacheLookup] at h
  | cons kv rest ih =>
    rw [cacheLookup] at h
    by_cases hk : kv.1 = k
    · rw [if_pos hk] at h
      have hv : kv.2 = v := by injection h
      have hkv : kv = (k, v) := by
        cases kv
        simp_all
      rw [← hkv]
      exact List.mem_cons_self _ _
    · rw [if_neg hk] at h
      exact List.mem_cons_of_mem _ (ih h)

theorem cacheLookup_eq_none_iff {cache : List (List MChar × List MChar)}
    {k : List MChar} : cacheLookup cache k = none ↔ ∀ kv ∈ cache, kv.1 ≠ k := by
  induction cache with
  | nil => simp [cacheLookup]
  | cons kv rest ih =>
    rw [cacheLookup]
    by_cases hk : kv.1 = k
    · simp [hk]
    · simp only [if_neg hk, ih, List.mem_cons]
      constructor
      · rintro h x (h1 | h1)
        · subst h1; exact hk
        · exact h x h1
      · intro h x hx; exact h x (Or.inr hx)

theorem removeBlockState_eq (s : PState) : removeBlockState s = s := rfl

theorem clearCorrupted_snd (s : PState) (b : Block) :
    (clearCorruptedImagePreviewBlock s b).2 = s := by
  rw [clearCorruptedImagePreviewBlock]
  split <;> rfl

theorem clearCorrupted_skip {b : Block} (s : PState) (h : CorruptFree b) :
    clearCorruptedImagePreviewBlock s b = (b, s) := by
  have hcond : (!onlySpacesB b.text && !decide (objPositions b.text = [])) = false := by
    rcases h with h | h
    · simp [h]
    · simp [h]
  rw [clearCorruptedImagePreviewBlock, hcond]
  rfl

theorem clearCorrupted_corruptFree (s : PState) (b : Block) :
    CorruptFree (clearCorruptedImagePreviewBlock s b).1 := by
  rw [clearCorruptedImagePreviewBlock]
  split
  · left
    simp only
    rw [objPositions_strip, objPositions_eq_nil_iff]
    intro hm
    have := (List.mem_filter.1 hm).2
    simp at this
  · rename_i h
    unfold CorruptFree
    by_cases h1 : onlySpacesB b.text = true
    · right
      exact h1
    · left
      rw [Bool.not_eq_true] at h1
      by_contra h2
      exact h (by simp [h1, h2])

theorem isImagePreviewBlock_iff {b : Block} :
    isImagePreviewBlock b = true ↔ trimmed b.text = [MChar.obj] := by
  simp [isImagePreviewBlock]

theorem artifact_chars {b : Block} (h : isImagePreviewBlock b = true) :
    ∀ x ∈ b.text, x = MChar.obj ∨ MChar.isSpace x = true := by
  intro x hx
  rcases mem_trimmed_or_space hx with h1 | h1
  · rw [isImagePreviewBlock_iff.1 h] at h1
    exact Or.inl (List.mem_singleton.1 h1)
  · exact Or.inr h1

theorem artifact_mem_obj {b : Block} (h : isImagePreviewBlock b = true) :
    MChar.obj ∈ b.text := by
  apply mem_of_mem_trimmed (t := b.text)
  rw [isImagePreviewBlock_iff.1 h]
  exact List.mem_singleton.2 rfl

theorem artifact_onlySpaces {b : Block} (h : isImagePreviewBlock b = true) :
    onlySpacesB b.text = true := by
  rw [onlySpacesB, List.all_eq_true]
  intro c hc
  rcases artifact_chars h c hc with h1 | h1
  · simp [h1]
  · simp [h1]

theorem matchImageAt_not_bang {c : MChar} (l : List MChar) (h : c ≠ MChar.bang) :
    matchImageAt (c :: l) = none := by
  cases c <;> first | rfl | exact absurd rfl h

theorem url_empty_of_obj_space {t : List MChar}
    (h : ∀ x ∈ t, x = MChar.obj ∨ MChar.isSpace x = true) :
    fetchImageUrlToPreview t = [] := by
  have hpos : matchPositions t = [] := by
    rw [matchPositions, List.filter_eq_nil_iff]
    intro i _
    cases hd : t.drop i with
    | nil => simp [matchImageAt]
    | cons c l =>
      have hc : c ∈ t := List.mem_of_mem_drop (hd ▸ List.mem_cons_self c l)
      have hcb : c ≠ MChar.bang := by
        rcases h c hc with h1 | h1
        · subst h1; intro hh; cases hh
        · intro hh; subst hh; cases h1
      simp [matchImageAt_not_bang l hcb]
  rw [fetchImageUrlToPreview, hpos]
  rfl

theorem artifact_path_empty {b : Block} (env : Env)
    (h : isImagePreviewBlock b = true) :
    fetchImagePathToPreview env b.text = [] := by
  have hurl : fetchImageUrlToPreview b.text = [] :=
    url_empty_of_obj_space (artifact_chars h)
  simp [fetchImagePathToPreview, hurl]

theorem not_artifact_of_no_obj {b : Block} (h : MChar.obj ∉ b.text) :
    isImagePreviewBlock b = false := by
  rw [Bool.eq_false_iff]
  intro hb
  exact h (artifact_mem_obj hb)

theorem clearCorrupted_not_artifact {b : Block} (s : PState)
    (h : isImagePreviewBlock b = false) :
    isImagePreviewBlock (clearCorruptedImagePreviewBlock s b).1 = false := by
  rw [clearCorruptedImagePreviewBlock]
  split
  · apply not_artifact_of_no_obj
    simp only
    rw [objPositions_strip]
    intro hm
    have := (List.mem_filter.1 hm).2
    simp at this
  · exact h

theorem emptyBlock_not_artifact : isImagePreviewBlock emptyBlock = false := rfl

/-! Lemmas about `imageCacheResourceName`. -/

theorem flagsEq_refl (s : PState) : FlagsEq s s := ⟨rfl, rfl, rfl, rfl, rfl, rfl⟩

theorem flagsEq_trans {s t u : PState} (h1 : FlagsEq s t) (h2 : FlagsEq t u) :
    FlagsEq s u :=
  ⟨h2.1.trans h1.1, h2.2.1.trans h1.2.1, h2.2.2.1.trans h1.2.2.1,
   h2.2.2.2.1.trans h1.2.2.2.1, h2.2.2.2.2.1.trans h1.2.2.2.2.1,
   h2.2.2.2.2.2.trans h1.2.2.2.2.2⟩

/-- Exhaustive case analysis of `imageCacheResourceName`. -/
theorem icrn_cases (env : Env) (s : PState) (p : List MChar) :
    (∃ name, cacheLookup s.cache p = some name ∧
       imageCacheResourceName env s p = (name, s))
    ∨ (cacheLookup s.cache p = none ∧ env.fileExists p = true ∧
        env.decodeOk p = true ∧
        imageCacheResourceName env s p =
          (p,
           { s with
              decodes := p :: s.decodes,
              resources := (p, env.localImage p) :: s.resources,
              cache := (p, p) :: s.cache }))
    ∨ (cacheLookup s.cache p = none ∧ env.fileExists p = true ∧
        env.decodeOk p = false ∧
        imageCacheResourceName env s p = ([], { s with decodes := p :: s.decodes }))
    ∨ (cacheLookup s.cache p = none ∧ env.fileExists p = false ∧
        imageCacheResourceName env s p = ([], { s with downloads := p :: s.downloads })) := by
  cases heq : cacheLookup s.cache p with
  | some name =>
    refine Or.inl ⟨name, rfl, ?_⟩
    rw [imageCacheResourceName, heq]
  | none =>
    cases hex : env.fileExists p with
    | true =>
      cases hdec : env.decodeOk p with
      | true =>
        refine Or.inr (Or.inl ⟨rfl, rfl, rfl, ?_⟩)
        rw [imageCacheResourceName, heq]
        simp [hex, hdec, imagePathToCacheResourceName]
      | false =>
        refine Or.inr (Or.inr (Or.inl ⟨rfl, rfl, rfl, ?_⟩))
        rw [imageCacheResourceName, heq]
        simp [hex, hdec]
    | false =>
      refine Or.inr (Or.inr (Or.inr ⟨rfl, rfl, ?_⟩))
      rw [imageCacheResourceName, heq]
      simp [hex]

theorem icrn_flags (env : Env) (s : PState) (p : List MChar) :
    FlagsEq s (imageCacheResourceName env s p).2 := by
  rcases icrn_cases env s p with ⟨name, _, h⟩ | ⟨_, _, _, h⟩ | ⟨_, _, _, h⟩ | ⟨_, _, h⟩ <;>
    rw [h] <;> exact ⟨rfl, rfl, rfl, rfl, rfl, rfl⟩

theorem icrn_modified (env : Env) (s : PState) (p : List MChar) :
    (imageCacheResourceName env s p).2.modified = s.modified := by
  rcases icrn_cases env s p with ⟨name, _, h⟩ | ⟨_, _, _, h⟩ | ⟨_, _, _, h⟩ | ⟨_, _, h⟩ <;>
    rw [h]

theorem icrn_name_eq (env : Env) (s : PState) (p : List MChar)
    (hwf : CacheWF s.cache) :
    (imageCacheResourceName env s p).1 = [] ∨ (imageCacheResourceName env s p).1 = p := by
  rcases icrn_cases env s p with ⟨name, heq, h⟩ | ⟨_, _, _, h⟩ | ⟨_, _, _, h⟩ | ⟨_, _, h⟩
  · rw [h]
    exact Or.inr ((hwf _ (cacheLookup_mem heq)).1)
  · rw [h]; exact Or.inr rfl
  · rw [h]; exact Or.inl rfl
  · rw [h]; exact Or.inl rfl

theorem icrn_name_empty_iff (env : Env) (s : PState) (p : List MChar)
    (hwf : CacheWF s.cache) (hp : p ≠ []) :
    ((imageCacheResourceName env s p).1 = [] ↔ ¬ Resolvable env s.cache p) := by
  rcases icrn_cases env s p with ⟨name, heq, h⟩ | ⟨heq, hex, hdec, h⟩ |
    ⟨heq, hex, hdec, h⟩ | ⟨heq, hex, h⟩
  · rw [h]
    have hname : name = p := (hwf _ (cacheLookup_mem heq)).1
    subst hname
    constructor
    · intro hh; exact absurd hh hp
    · intro hh
      exact absurd (Or.inl (by rw [heq]; rfl)) hh
  · rw [h]
    constructor
    · intro hh; exact absurd hh hp
    · intro hh; exact absurd (Or.inr ⟨hex, hdec⟩) hh
  · rw [h]
    simp only [true_iff]
    rintro (hh | ⟨h1, h2⟩)
    · rw [heq] at hh; simp at hh
    · rw [hdec] at h2; cases h2
  · rw [h]
    simp only [true_iff]
    rintro (hh | ⟨h1, h2⟩)
    · rw [heq] at hh; simp at hh
    · rw [hex] at h1; cases h1

theorem icrn_cache_of_empty (env : Env) (s : PState) (p : List MChar)
    (hp : p ≠ []) (h : (imageCacheResourceName env s p).1 = []) :
    (imageCacheResourceName env s p).2.cache = s.cache := by
  rcases icrn_cases env s p with ⟨name, heq, hh⟩ | ⟨heq, hex, hdec, hh⟩ |
    ⟨heq, hex, hdec, hh⟩ | ⟨heq, hex, hh⟩ <;> rw [hh]
  rw [hh] at h
  simp only at h
  exact absurd h hp

theorem icrn_cacheWF (env : Env) (s : PState) (p : List MChar)
    (hwf : CacheWF s.cache) (hp : p ≠ []) :
    CacheWF (imageCacheResourceName env s p).2.cache := by
  rcases icrn_cases env s p with ⟨name, heq, hh⟩ | ⟨heq, hex, hdec, hh⟩ |
    ⟨heq, hex, hdec, hh⟩ | ⟨heq, hex, hh⟩ <;> rw [hh]
  · exact hwf
  · intro kv hkv
    rcases List.mem_cons.1 hkv with h1 | h1
    · subst h1; exact ⟨rfl, hp⟩
    · exact hwf kv h1
  · exact hwf
  · exact hwf

theorem icrn_resolvable_inv (env : Env) (s : PState) (p : List MChar) (q : List MChar) :
    (Resolvable env (imageCacheResourceName env s p).2.cache q ↔
      Resolvable env s.cache q) := by
  rcases icrn_cases env s p with ⟨name, heq, hh⟩ | ⟨heq, hex, hdec, hh⟩ |
    ⟨heq, hex, hdec, hh⟩ | ⟨heq, hex, hh⟩ <;> rw [hh]
  unfold Resolvable
  simp only
  rw [cacheLookup]
  by_cases hpq : p = q
  · subst hpq
    constructor
    · intro _
      exact Or.inr ⟨hex, hdec⟩
    · intro _
      left
      simp
  · simp only [if_neg hpq]

/-! Case analyses of the block mutation primitives. -/

theorem insert_cases (env : Env) (s : PState) (p : List MChar) :
    ((imageCacheResourceName env s p).1 = [] ∧
      insertImagePreviewBlock env s p = (none, (imageCacheResourceName env s p).2))
    ∨ ((imageCacheResourceName env s p).1 ≠ [] ∧
        insertImagePreviewBlock env s p =
          (some { text := [MChar.obj],
                  fmt := some { name := (imageCacheResourceName env s p).1, path := p } },
           (imageCacheResourceName env s p).2)) := by
  by_cases h : (imageCacheResourceName env s p).1 = []
  · refine Or.inl ⟨h, ?_⟩
    simp only [insertImagePreviewBlock]
    rw [if_pos h]
  · refine Or.inr ⟨h, ?_⟩
    simp only [insertImagePreviewBlock]
    rw [if_neg h]

theorem update_cases (env : Env) (s : PState) (b : Block) (p : List MChar) :
    (fetchImagePathFromPreviewBlock b = p ∧
      updateImagePreviewBlock env s b p = (some b, s))
    ∨ (fetchImagePathFromPreviewBlock b ≠ p ∧
        (imageCacheResourceName env s p).1 = [] ∧
        updateImagePreviewBlock env s b p = (none, (imageCacheResourceName env s p).2))
    ∨ (fetchImagePathFromPreviewBlock b ≠ p ∧
        (imageCacheResourceName env s p).1 ≠ [] ∧
        updateImagePreviewBlock env s b p =
          (some { text := b.text,
                  fmt := some { name := (imageCacheResourceName env s p).1, path := p } },
           { (imageCacheResourceName env s p).2 with modified := true })) := by
  by_cases hcur : fetchImagePathFromPreviewBlock b = p
  · refine Or.inl ⟨hcur, ?_⟩
    simp only [updateImagePreviewBlock]
    rw [if_pos hcur]
  · by_cases h : (imageCacheResourceName env s p).1 = []
    · refine Or.inr (Or.inl ⟨hcur, h, ?_⟩)
      simp only [updateImagePreviewBlock]
      rw [if_neg hcur, if_pos h]
      rfl
    · refine Or.inr (Or.inr ⟨hcur, h, ?_⟩)
      simp only [updateImagePreviewBlock]
      rw [if_neg hcur, if_neg h]

theorem clearCorrupted_strip {b : Block} (s : PState) (h : ¬ CorruptFree b) :
    clearCorruptedImagePreviewBlock s b =
      ({ text := b.text.filter (fun c => !decide (c = MChar.obj)), fmt := b.fmt }, s) := by
  have h1 : objPositions b.text ≠ [] := fun hh => h (Or.inl hh)
  have h2 : onlySpacesB b.text = false := by
    rcases Bool.eq_false_or_eq_true (onlySpacesB b.text) with hh | hh
    · exact absurd (Or.inr hh) h
    · exact hh
  have hcond : (!onlySpacesB b.text && !decide (objPositions b.text = [])) = true := by
    simp [h1, h2]
  rw [clearCorruptedImagePreviewBlock, if_pos hcond, objPositions_strip]

/-! Branch equations for `scanCore`. -/

theorem scanCore_nil (env : Env) (s : PState) (prev : Option Block) :
    scanCore env s prev [] = (s, []) := by
  rw [scanCore]

theorem scanCore_off (env : Env) (s : PState) (prev : Option Block)
    (todo : List Block) (h : s.enablePreview = false) :
    scanCore env s prev todo = (s, todo) := by
  cases todo with
  | nil => rw [scanCore]
  | cons b rest =>
    cases rest with
    | nil => simp [scanCore, h]
    | cons nb rest2 => simp [scanCore, h]

theorem scanCore_art_valid (env : Env) (s : PState) (prev : Option Block)
    (b : Block) (rest : List Block)
    (he : s.enablePreview = true) (hb : isImagePreviewBlock b = true)
    (hv : isValidImagePreviewBlock env prev b = true) :
    scanCore env s prev (b :: rest) =
      ((scanCore env s (some b) rest).1, b :: (scanCore env s (some b) rest).2) := by
  cases rest with
  | nil => simp [scanCore, he, hb, hv]
  | cons nb rest2 => simp [scanCore, he, hb, hv]

theorem scanCore_art_invalid_first (env : Env) (s : PState)
    (b : Block) (rest : List Block)
    (he : s.enablePreview = true) (hb : isImagePreviewBlock b = true)
    (hv : isValidImagePreviewBlock env none b = false) :
    scanCore env s none (b :: rest) =
      ((scanCore env s (some emptyBlock) rest).1,
        emptyBlock :: (scanCore env s (some emptyBlock) rest).2) := by
  cases rest with
  | nil => simp [scanCore, he, hb, hv, removeBlockState_eq]
  | cons nb rest2 => simp [scanCore, he, hb, hv, removeBlockState_eq]

theorem scanCore_art_invalid (env : Env) (s : PState) (q b : Block) (rest : List Block)
    (he : s.enablePreview = true) (hb : isImagePreviewBlock b = true)
    (hv : isValidImagePreviewBlock env (some q) b = false) :
    scanCore env s (some q) (b :: rest) = scanCore env s (some q) rest := by
  cases rest with
  | nil => simp [scanCore, he, hb, hv, removeBlockState_eq]
  | cons nb rest2 => simp [scanCore, he, hb, hv, removeBlockState_eq]

theorem scanCore_src_nopath (env : Env) (s : PState) (prev : Option Block)
    (b b2 : Block) (rest : List Block)
    (he : s.enablePreview = true) (hb : isImagePreviewBlock b = false)
    (hc : clearCorruptedImagePreviewBlock s b = (b2, s))
    (hpath : fetchImagePathToPreview env b2.text = []) :
    scanCore env s prev (b :: rest) =
      ((scanCore env s (some b2) rest).1, b2 :: (scanCore env s (some b2) rest).2) := by
  cases rest with
  | nil => simp [scanCore, he, hb, hc, hpath]
  | cons nb rest2 => simp [scanCore, he, hb, hc, hpath]

theorem scanCore_src_update_some (env : Env) (s s2 : PState) (prev : Option Block)
    (b b2 nb nb2 : Block) (rest2 : List Block) (p : List MChar)
    (he : s.enablePreview = true) (hb : isImagePreviewBlock b = false)
    (hc : clearCorruptedImagePreviewBlock s b = (b2, s))
    (hP : fetchImagePathToPreview env b2.text = p) (hp : p ≠ [])
    (hnb : isImagePreviewBlock nb = true)
    (hu : updateImagePreviewBlock env s nb p = (some nb2, s2)) :
    scanCore env s prev (b :: nb :: rest2) =
      ((scanCore env s2 (some nb2) rest2).1,
        b2 :: nb2 :: (scanCore env s2 (some nb2) rest2).2) := by
  simp [scanCore, he, hb, hc, hP, hp, hnb, hu]

theorem scanCore_src_update_none (env : Env) (s s2 : PState) (prev : Option Block)
    (b b2 nb : Block) (rest2 : List Block) (p : List MChar)
    (he : s.enablePreview = true) (hb : isImagePreviewBlock b = false)
    (hc : clearCorruptedImagePreviewBlock s b = (b2, s))
    (hP : fetchImagePathToPreview env b2.text = p) (hp : p ≠ [])
    (hnb : isImagePreviewBlock nb = true)
    (hu : updateImagePreviewBlock env s nb p = (none, s2)) :
    scanCore env s prev (b :: nb :: rest2) =
      ((scanCore env s2 (some b2) rest2).1,
        b2 :: (scanCore env s2 (some b2) rest2).2) := by
  simp [scanCore, he, hb, hc, hP, hp, hnb, hu]

theorem scanCore_src_insert_some (env : Env) (s s2 : PState) (prev : Option Block)
    (b b2 nb ab : Block) (rest2 : List Block) (p : List MChar)
    (he : s.enablePreview = true) (hb : isImagePreviewBlock b = false)
    (hc : clearCorruptedImagePreviewBlock s b = (b2, s))
    (hP : fetchImagePathToPreview env b2.text = p) (hp : p ≠ [])
    (hnb : isImagePreviewBlock nb = false)
    (hins : insertImagePreviewBlock env s p = (some ab, s2)) :
    scanCore env s prev (b :: nb :: rest2) =
      ((scanCore env s2 (some ab) (nb :: rest2)).1,
        b2 :: ab :: (scanCore env s2 (some ab) (nb :: rest2)).2) := by
  simp [scanCore, he, hb, hc, hP, hp, hnb, hins]

theorem scanCore_src_insert_none (env : Env) (s s2 : PState) (prev : Option Block)
    (b b2 nb : Block) (rest2 : List Block) (p : List MChar)
    (he : s.enablePreview = true) (hb : isImagePreviewBlock b = false)
    (hc : clearCorruptedImagePreviewBlock s b = (b2, s))
    (hP : fetchImagePathToPreview env b2.text = p) (hp : p ≠ [])
    (hnb : isImagePreviewBlock nb = false)
    (hins : insertImagePreviewBlock env s p = (none, s2)) :
    scanCore env s prev (b :: nb :: rest2) =
      ((scanCore env s2 (some b2) (nb :: rest2)).1,
        b2 :: (scanCore env s2 (some b2) (nb :: rest2)).2) := by
  simp [scanCore, he, hb, hc, hP, hp, hnb, hins]

theorem scanCore_src_last_insert_some (env : Env) (s s2 : PState) (prev : Option Block)
    (b b2 ab : Block) (p : List MChar)
    (he : s.enablePreview = true) (hb : isImagePreviewBlock b = false)
    (hc : clearCorruptedImagePreviewBlock s b = (b2, s))
    (hP : fetchImagePathToPreview env b2.text = p) (hp : p ≠ [])
    (hins : insertImagePreviewBlock env s p = (some ab, s2)) :
    scanCore env s prev [b] = (s2, [b2, ab]) := by
  simp [scanCore, he, hb, hc, hP, hp, hins]

theorem scanCore_src_last_insert_none (env : Env) (s s2 : PState) (prev : Option Block)
    (b b2 : Block) (p : List MChar)
    (he : s.enablePreview = true) (hb : isImagePreviewBlock b = false)
    (hc : clearCorruptedImagePreviewBlock s b = (b2, s))
    (hP : fetchImagePathToPreview env b2.text = p) (hp : p ≠ [])
    (hins : insertImagePreviewBlock env s p = (none, s2)) :
    scanCore env s prev [b] = (s2, [b2]) := by
  simp [scanCore, he, hb, hc, hP, hp, hins]

theorem clearCorrupted_eq (s : PState) (b : Block) :
    clearCorruptedImagePreviewBlock s b = ((clearCorruptedImagePreviewBlock s b).1, s) := by
  have h : clearCorruptedImagePreviewBlock s b =
      ((clearCorruptedImagePreviewBlock s b).1, (clearCorruptedImagePreviewBlock s b).2) := rfl
  rw [clearCorrupted_snd] at h
  exact h

theorem insert_eta (env : Env) (s : PState) (p : List MChar) :
    insertImagePreviewBlock env s p =
      ((insertImagePreviewBlock env s p).1, (insertImagePreviewBlock env s p).2) := rfl

theorem update_eta (env : Env) (s : PState) (b : Block) (p : List MChar) :
    updateImagePreviewBlock env s b p =
      ((updateImagePreviewBlock env s b p).1, (updateImagePreviewBlock env s b p).2) := rfl

theorem insert_flags (env : Env) (s : PState) (p : List MChar) :
    FlagsEq s (insertImagePreviewBlock env s p).2 := by
  rcases insert_cases env s p with ⟨h, hh⟩ | ⟨h, hh⟩ <;>
    rw [hh] <;> exact icrn_flags env s p

theorem insert_modified (env : Env) (s : PState) (p : List MChar) :
    (insertImagePreviewBlock env s p).2.modified = s.modified := by
  rcases insert_cases env s p with ⟨h, hh⟩ | ⟨h, hh⟩ <;>
    rw [hh] <;> exact icrn_modified env s p

theorem update_flags (env : Env) (s : PState) (b : Block) (p : List MChar) :
    FlagsEq s (updateImagePreviewBlock env s b p).2 := by
  rcases update_cases env s b p with ⟨h, hh⟩ | ⟨h1, h2, hh⟩ | ⟨h1, h2, hh⟩ <;> rw [hh]
  · exact flagsEq_refl s
  · exact icrn_flags env s p
  · exact flagsEq_trans (icrn_flags env s p) ⟨rfl, rfl, rfl, rfl, rfl, rfl⟩

theorem scanCore_flags_aux (env : Env) :
    ∀ n todo (s : PState) prev, todo.length ≤ n →
      FlagsEq s (scanCore env s prev todo).1 := by
  intro n
  induction n with
  | zero =>
    intro todo s prev hlen
    have h0 : todo = [] := List.eq_nil_of_length_eq_zero (Nat.le_zero.1 hlen)
    subst h0
    rw [scanCore_nil]
    exact flagsEq_refl s
  | succ n ih =>
    intro todo s prev hlen
    match todo with
    | [] =>
      rw [scanCore_nil]
      exact flagsEq_refl s
    | b :: rest =>
      cases he : s.enablePreview with
      | false =>
        rw [scanCore_off env s prev _ he]
        exact flagsEq_refl s
      | true =>
      have hlen2 : rest.length ≤ n := by
        simpa using hlen
      cases hb : isImagePreviewBlock b with
      | false => -- source block
        have hc := clearCorrupted_eq s b
        rcases Decidable.em
            (fetchImagePathToPreview env (clearCorruptedImagePreviewBlock s b).1.text = [])
          with hpath | hpath
        · rw [scanCore_src_nopath env s prev b _ rest he hb hc hpath]
          exact ih rest s _ hlen2
        · match rest with
          | [] =>
            cases ho : (insertImagePreviewBlock env s
                (fetchImagePathToPreview env (clearCorruptedImagePreviewBlock s b).1.text)).1 with
            | some ab =>
              rw [scanCore_src_last_insert_some env s _ prev b _ ab _ he hb hc rfl hpath
                (by rw [← ho])]
              exact insert_flags env s _
            | none =>
              rw [scanCore_src_last_insert_none env s _ prev b _ _ he hb hc rfl hpath
                (by rw [← ho])]
              exact insert_flags env s _
          | nb :: rest2 =>
            have hlen3 : rest2.length ≤ n := by
              simp only [List.length_cons] at hlen
              omega
            cases hnb : isImagePreviewBlock nb with
            | false => -- insert in front of nb
              cases ho : (insertImagePreviewBlock env s
                  (fetchImagePathToPreview env (clearCorruptedImagePreviewBlock s b).1.text)).1 with
              | some ab =>
                rw [scanCore_src_insert_some env s _ prev b _ nb ab rest2 _ he hb hc rfl hpath
                  hnb (by rw [← ho])]
                exact flagsEq_trans (insert_flags env s _) (ih (nb :: rest2) _ _ hlen2)
              | none =>
                rw [scanCore_src_insert_none env s _ prev b _ nb rest2 _ he hb hc rfl hpath
                  hnb (by rw [← ho])]
                exact flagsEq_trans (insert_flags env s _) (ih (nb :: rest2) _ _ hlen2)
            | true => -- update nb
              cases ho : (updateImagePreviewBlock env s nb
                  (fetchImagePathToPreview env (clearCorruptedImagePreviewBlock s b).1.text)).1 with
              | some nb2 =>
                rw [scanCore_src_update_some env s _ prev b _ nb nb2 rest2 _ he hb hc rfl hpath
                  hnb (by rw [← ho])]
                exact flagsEq_trans (update_flags env s nb _) (ih rest2 _ _ hlen3)
              | none =>
                rw [scanCore_src_update_none env s _ prev b _ nb rest2 _ he hb hc rfl hpath
                  hnb (by rw [← ho])]
                exact flagsEq_trans (update_flags env s nb _) (ih rest2 _ _ hlen3)
      | true => -- image preview block
        cases hv : isValidImagePreviewBlock env prev b with
        | false =>
          cases prev with
          | none =>
            rw [scanCore_art_invalid_first env s b rest he hb hv]
            exact ih rest s _ hlen2
          | some q =>
            rw [scanCore_art_invalid env s q b rest he hb hv]
            exact ih rest s _ hlen2
        | true =>
          rw [scanCore_art_valid env s prev b rest he hb hv]
          exact ih rest s _ hlen2

theorem scanCore_flags (env : Env) (s : PState) (prev : Option Block)
    (todo : List Block) : FlagsEq s (scanCore env s prev todo).1 :=
  scanCore_flags_aux env todo.length todo s prev le_rfl

/-! Support lemmas for the scan invariant. -/

theorem isValid_none (env : Env) (b : Block) :
    isValidImagePreviewBlock env none b = false := by
  simp [isValidImagePreviewBlock]

theorem isValid_iff (env : Env) (pb b : Block) :
    isValidImagePreviewBlock env (some pb) b = true ↔
      isImagePreviewBlock b = true ∧
        fetchImagePathToPreview env pb.text ≠ [] ∧
        fetchImagePathFromPreviewBlock b = fetchImagePathToPreview env pb.text := by
  simp [isValidImagePreviewBlock]

theorem not_artifact_of_path (env : Env) {pb : Block}
    (h : fetchImagePathToPreview env pb.text ≠ []) :
    isImagePreviewBlock pb = false := by
  rcases Bool.eq_false_or_eq_true (isImagePreviewBlock pb) with hh | hh
  · exact absurd (artifact_path_empty env hh) h
  · exact hh

theorem path_nil (env : Env) : fetchImagePathToPreview env ([] : List MChar) = [] := rfl

theorem corruptFree_artifact {b : Block} (h : isImagePreviewBlock b = true) :
    CorruptFree b := Or.inr (artifact_onlySpaces h)

theorem corruptFree_emptyBlock : CorruptFree emptyBlock := Or.inl rfl

theorem inserted_block_artifact (n p : List MChar) :
    isImagePreviewBlock { text := [MChar.obj], fmt := some { name := n, path := p } } = true := by
  simp [isImagePreviewBlock, trimmed, MChar.isSpace, List.dropWhile]

theorem inserted_block_path (n p : List MChar) :
    fetchImagePathFromPreviewBlock
      { text := [MChar.obj], fmt := some { name := n, path := p } } = p := by
  simp [fetchImagePathFromPreviewBlock, fetchFormatFromPreviewBlock]

theorem isImagePreviewBlock_text {b b2 : Block} (h : b2.text = b.text) :
    isImagePreviewBlock b2 = isImagePreviewBlock b := by
  rw [isImagePreviewBlock, isImagePreviewBlock, h]

/-! Facts about `insertImagePreviewBlock` results. -/

theorem insert_some_spec (env : Env) (s : PState) (p : List MChar) {ab : Block}
    (hwf : CacheWF s.cache) (hp : p ≠ [])
    (h : (insertImagePreviewBlock env s p).1 = some ab) :
    ab = { text := [MChar.obj], fmt := some { name := p, path := p } } ∧
      Resolvable env s.cache p := by
  rcases insert_cases env s p with ⟨h1, hh⟩ | ⟨h1, hh⟩
  · rw [hh] at h
    cases h
  · rw [hh] at h
    have hname : (imageCacheResourceName env s p).1 = p := by
      rcases icrn_name_eq env s p hwf with hn | hn
      · exact absurd hn h1
      · exact hn
    have hres : Resolvable env s.cache p := by
      by_contra hcon
      exact h1 ((icrn_name_empty_iff env s p hwf hp).2 hcon)
    injection h with h
    exact ⟨by rw [← h, hname], hres⟩

theorem insert_none_spec (env : Env) (s : PState) (p : List MChar)
    (hwf : CacheWF s.cache) (hp : p ≠ [])
    (h : (insertImagePreviewBlock env s p).1 = none) :
    ¬ Resolvable env s.cache p ∧ (insertImagePreviewBlock env s p).2.cache = s.cache := by
  rcases insert_cases env s p with ⟨h1, hh⟩ | ⟨h1, hh⟩
  · refine ⟨(icrn_name_empty_iff env s p hwf hp).1 h1, ?_⟩
    rw [hh]
    exact icrn_cache_of_empty env s p hp h1
  · rw [hh] at h
    cases h

theorem insert_cacheWF (env : Env) (s : PState) (p : List MChar)
    (hwf : CacheWF s.cache) (hp : p ≠ []) :
    CacheWF (insertImagePreviewBlock env s p).2.cache := by
  rcases insert_cases env s p with ⟨h1, hh⟩ | ⟨h1, hh⟩ <;> rw [hh] <;>
    exact icrn_cacheWF env s p hwf hp

theorem insert_resolvable_inv (env : Env) (s : PState) (p q : List MChar) :
    Resolvable env (insertImagePreviewBlock env s p).2.cache q ↔
      Resolvable env s.cache q := by
  rcases insert_cases env s p with ⟨h1, hh⟩ | ⟨h1, hh⟩ <;> rw [hh] <;>
    exact icrn_resolvable_inv env s p q

/-! Facts about `updateImagePreviewBlock` results. -/

theorem update_some_spec (env : Env) (s : PState) (b : Block) (p : List MChar) {nb2 : Block}
    (hwf : CacheWF s.cache)
    (h : (updateImagePreviewBlock env s b p).1 = some nb2) :
    nb2.text = b.text ∧ (MChar.obj ∈ b.text → fetchImagePathFromPreviewBlock nb2 = p) := by
  rcases update_cases env s b p with ⟨h1, hh⟩ | ⟨h1, h2, hh⟩ | ⟨h1, h2, hh⟩
  · rw [hh] at h
    injection h with h
    subst h
    exact ⟨rfl, fun _ => h1⟩
  · rw [hh] at h
    cases h
  · rw [hh] at h
    injection h with h
    have hname : (imageCacheResourceName env s p).1 = p := by
      rcases icrn_name_eq env s p hwf with hn | hn
      · exact absurd hn h2
      · exact hn
    subst h
    refine ⟨rfl, fun hobj => ?_⟩
    rw [fetchImagePathFromPreviewBlock, fetchFormatFromPreviewBlock]
    simp only [hobj, if_pos]

theorem update_none_spec (env : Env) (s : PState) (b : Block) (p : List MChar)
    (hwf : CacheWF s.cache) (hp : p ≠ [])
    (h : (updateImagePreviewBlock env s b p).1 = none) :
    ¬ Resolvable env s.cache p ∧ (updateImagePreviewBlock env s b p).2.cache = s.cache := by
  rcases update_cases env s b p with ⟨h1, hh⟩ | ⟨h1, h2, hh⟩ | ⟨h1, h2, hh⟩
  · rw [hh] at h
    cases h
  · refine ⟨(icrn_name_empty_iff env s p hwf hp).1 h2, ?_⟩
    rw [hh]
    exact icrn_cache_of_empty env s p hp h2
  · rw [hh] at h
    cases h

theorem update_cacheWF (env : Env) (s : PState) (b : Block) (p : List MChar)
    (hwf : CacheWF s.cache) (hp : p ≠ []) :
    CacheWF (updateImagePreviewBlock env s b p).2.cache := by
  rcases update_cases env s b p with ⟨h1, hh⟩ | ⟨h1, h2, hh⟩ | ⟨h1, h2, hh⟩ <;> rw [hh]
  · exact hwf
  · exact icrn_cacheWF env s p hwf hp
  · exact icrn_cacheWF env s p hwf hp

theorem update_resolvable_inv (env : Env) (s : PState) (b : Block) (p q : List MChar) :
    Resolvable env (updateImagePreviewBlock env s b p).2.cache q ↔
      Resolvable env s.cache q := by
  rcases update_cases env s b p with ⟨h1, hh⟩ | ⟨h1, h2, hh⟩ | ⟨h1, h2, hh⟩ <;> rw [hh]
  · exact icrn_resolvable_inv env s p q
  · exact icrn_resolvable_inv env s p q

/-! Lemmas about `InvariantDoc`. -/

theorem invariantDoc_nil (env : Env) (cache : List (List MChar × List MChar))
    (prev : Option Block) : InvariantDoc env cache prev [] := trivial

theorem invariantDoc_cons (env : Env) (cache : List (List MChar × List MChar))
    (prev : Option Block) (b : Block) (rest : List Block) :
    InvariantDoc env cache prev (b :: rest) ↔
      ArtifactOk env prev b ∧ SourceOk env cache b rest ∧
        InvariantDoc env cache (some b) rest := Iff.rfl

theorem invariantDoc_congr {env : Env} {c1 c2 : List (List MChar × List MChar)}
    (hres : ∀ q, Resolvable env c1 q ↔ Resolvable env c2 q) :
    ∀ l prev, InvariantDoc env c1 prev l → InvariantDoc env c2 prev l := by
  intro l
  induction l with
  | nil => intro prev _; trivial
  | cons b rest ih =>
    intro prev h
    rcases h with ⟨h1, h2, h3⟩
    refine ⟨h1, ?_, ih (some b) h3⟩
    intro hb hp hres2
    exact h2 hb hp ((hres _).2 hres2)

/-- Main scan lemma: a completed walk establishes the document invariant
(w.r.t. the cache at the start of the walk), leaves every emitted block free
of corruption, keeps the cache well formed and does not change which paths
are resolvable. -/
theorem scanCore_spec_aux (env : Env) :
    ∀ n todo (s : PState) prev, todo.length ≤ n →
      s.enablePreview = true → CacheWF s.cache →
      InvariantDoc env s.cache prev (scanCore env s prev todo).2
      ∧ (∀ b ∈ (scanCore env s prev todo).2, CorruptFree b)
      ∧ CacheWF (scanCore env s prev todo).1.cache
      ∧ (∀ q, Resolvable env (scanCore env s prev todo).1.cache q ↔
            Resolvable env s.cache q) := by
  intro n
  induction n with
  | zero =>
    intro todo s prev hlen he hwf
    have h0 : todo = [] := List.eq_nil_of_length_eq_zero (Nat.le_zero.1 hlen)
    subst h0
    rw [scanCore_nil]
    refine ⟨trivial, ?_, hwf, fun q => Iff.rfl⟩
    intro x hx
    cases hx
  | succ n ih =>
    intro todo s prev hlen he hwf
    match todo with
    | [] =>
      rw [scanCore_nil]
      refine ⟨trivial, ?_, hwf, fun q => Iff.rfl⟩
      intro x hx
      cases hx
    | b :: rest =>
      have hlen2 : rest.length ≤ n := by simpa using hlen
      cases hb : isImagePreviewBlock b with
      | true =>
        cases hv : isValidImagePreviewBlock env prev b with
        | false =>
          cases prev with
          | none =>
            rw [scanCore_art_invalid_first env s b rest he hb hv]
            obtain ⟨IH1, IH2, IH3, IH4⟩ := ih rest s (some emptyBlock) hlen2 he hwf
            refine ⟨⟨?_, ?_, IH1⟩, ?_, IH3, IH4⟩
            · intro hfalse
              rw [emptyBlock_not_artifact] at hfalse
              cases hfalse
            · intro _ hpne _
              exact absurd (path_nil env) hpne
            · intro x hx
              rcases List.mem_cons.1 hx with hx | hx
              · subst hx
                exact corruptFree_emptyBlock
              · exact IH2 x hx
          | some q =>
            rw [scanCore_art_invalid env s q b rest he hb hv]
            exact ih rest s (some q) hlen2 he hwf
        | true =>
          rw [scanCore_art_valid env s prev b rest he hb hv]
          obtain ⟨IH1, IH2, IH3, IH4⟩ := ih rest s (some b) hlen2 he hwf
          refine ⟨⟨?_, ?_, IH1⟩, ?_, IH3, IH4⟩
          · intro _
            cases prev with
            | none =>
              rw [isValid_none] at hv
              cases hv
            | some pb =>
              obtain ⟨hb2, hpne, hpeq⟩ := (isValid_iff env pb b).1 hv
              exact ⟨pb, rfl, not_artifact_of_path env hpne, hpne, hpeq⟩
          · intro hbf
            rw [hb] at hbf
            cases hbf
          · intro x hx
            rcases List.mem_cons.1 hx with hx | hx
            · subst hx
              exact corruptFree_artifact hb
            · exact IH2 x hx
      | false =>
        have hc := clearCorrupted_eq s b
        have hb2na : isImagePreviewBlock (clearCorruptedImagePreviewBlock s b).1 = false :=
          clearCorrupted_not_artifact s hb
        rcases Decidable.em
            (fetchImagePathToPreview env (clearCorruptedImagePreviewBlock s b).1.text = [])
          with hpath | hpath
        · rw [scanCore_src_nopath env s prev b _ rest he hb hc hpath]
          obtain ⟨IH1, IH2, IH3, IH4⟩ := ih rest s _ hlen2 he hwf
          refine ⟨⟨?_, ?_, IH1⟩, ?_, IH3, IH4⟩
          · intro hfalse
            rw [hb2na] at hfalse
            cases hfalse
          · intro _ hpne _
            exact absurd hpath hpne
          · intro x hx
            rcases List.mem_cons.1 hx with hx | hx
            · subst hx
              exact clearCorrupted_corruptFree s b
            · exact IH2 x hx
        · match rest with
          | [] =>
            cases ho : (insertImagePreviewBlock env s
                (fetchImagePathToPreview env (clearCorruptedImagePreviewBlock s b).1.text)).1 with
            | some ab =>
              rw [scanCore_src_last_insert_some env s _ prev b _ ab _ he hb hc rfl hpath
                (by rw [← ho])]
              obtain ⟨hab, hres⟩ := insert_some_spec env s _ hwf hpath ho
              have habArt : isImagePreviewBlock ab = true := by
                rw [hab]
                exact inserted_block_artifact _ _
              refine ⟨⟨?_, ?_, ?_, ?_, trivial⟩, ?_, ?_, ?_⟩
              · intro hfalse
                rw [hb2na] at hfalse
                cases hfalse
              · intro _ _ _
                refine ⟨ab, [], rfl, habArt, ?_⟩
                rw [hab]
                exact inserted_block_path _ _
              · intro _
                refine ⟨_, rfl, hb2na, hpath, ?_⟩
                rw [hab]
                exact inserted_block_path _ _
              · intro habf
                rw [habArt] at habf
                cases habf
              · intro x hx
                rcases List.mem_cons.1 hx with hx | hx
                · subst hx
                  exact clearCorrupted_corruptFree s b
                · rcases List.mem_cons.1 hx with hx | hx
                  · subst hx
                    exact corruptFree_artifact habArt
                  · cases hx
              · exact insert_cacheWF env s _ hwf hpath
              · exact fun q => insert_resolvable_inv env s _ q
            | none =>
              rw [scanCore_src_last_insert_none env s _ prev b _ _ he hb hc rfl hpath
                (by rw [← ho])]
              obtain ⟨hnres, hcache⟩ := insert_none_spec env s _ hwf hpath ho
              refine ⟨⟨?_, ?_, trivial⟩, ?_, ?_, ?_⟩
              · intro hfalse
                rw [hb2na] at hfalse
                cases hfalse
              · intro _ _ hresolv
                exact absurd hresolv hnres
              · intro x hx
                rcases List.mem_cons.1 hx with hx | hx
                · subst hx
                  exact clearCorrupted_corruptFree s b
                · cases hx
              · rw [hcache]
                exact hwf
              · intro q
                rw [hcache]
          | nb :: rest2 =>
            have hlen3 : rest2.length ≤ n := by
              simp only [List.length_cons] at hlen
              omega
            cases hnb : isImagePreviewBlock nb with
            | false =>
              cases ho : (insertImagePreviewBlock env s
                  (fetchImagePathToPreview env (clearCorruptedImagePreviewBlock s b).1.text)).1 with
              | some ab =>
                rw [scanCore_src_insert_some env s _ prev b _ nb ab rest2 _ he hb hc rfl hpath
                  hnb (by rw [← ho])]
                obtain ⟨hab, hres⟩ := insert_some_spec env s _ hwf hpath ho
                have habArt : isImagePreviewBlock ab = true := by
                  rw [hab]
                  exact inserted_block_artifact _ _
                have hEn2 : (insertImagePreviewBlock env s
                    (fetchImagePathToPreview env
                      (clearCorruptedImagePreviewBlock s b).1.text)).2.enablePreview = true := by
                  rw [(insert_flags env s _).1]
                  exact he
                have hwf2 := insert_cacheWF env s
                  (fetchImagePathToPreview env (clearCorruptedImagePreviewBlock s b).1.text)
                  hwf hpath
                obtain ⟨IH1, IH2, IH3, IH4⟩ := ih (nb :: rest2) _ (some ab) hlen2 hEn2 hwf2
                refine ⟨⟨?_, ?_, ?_, ?_, ?_⟩, ?_, IH3, ?_⟩
                · intro hfalse
                  rw [hb2na] at hfalse
                  cases hfalse
                · intro _ _ _
                  refine ⟨ab, _, rfl, habArt, ?_⟩
                  rw [hab]
                  exact inserted_block_path _ _
                · intro _
                  refine ⟨_, rfl, hb2na, hpath, ?_⟩
                  rw [hab]
                  exact inserted_block_path _ _
                · intro habf
                  rw [habArt] at habf
                  cases habf
                · exact invariantDoc_congr (fun q => insert_resolvable_inv env s _ q) _ _ IH1
                · intro x hx
                  rcases List.mem_cons.1 hx with hx | hx
                  · subst hx
                    exact clearCorrupted_corruptFree s b
                  · rcases List.mem_cons.1 hx with hx | hx
                    · subst hx
                      exact corruptFree_artifact habArt
                    · exact IH2 x hx
                · intro q
                  exact (IH4 q).trans (insert_resolvable_inv env s _ q)
              | none =>
                rw [scanCore_src_insert_none env s _ prev b _ nb rest2 _ he hb hc rfl hpath
                  hnb (by rw [← ho])]
                obtain ⟨hnres, hcache⟩ := insert_none_spec env s _ hwf hpath ho
                have hEn2 : (insertImagePreviewBlock env s
                    (fetchImagePathToPreview env
                      (clearCorruptedImagePreviewBlock s b).1.text)).2.enablePreview = true := by
                  rw [(insert_flags env s _).1]
                  exact he
                have hwf2 : CacheWF (insertImagePreviewBlock env s
                    (fetchImagePathToPreview env
                      (clearCorruptedImagePreviewBlock s b).1.text)).2.cache := by
                  rw [hcache]
                  exact hwf
                obtain ⟨IH1, IH2, IH3, IH4⟩ := ih (nb :: rest2) _ (some _) hlen2 hEn2 hwf2
                rw [hcache] at IH1 IH4
                refine ⟨⟨?_, ?_, IH1⟩, ?_, IH3, IH4⟩
                · intro hfalse
                  rw [hb2na] at hfalse
                  cases hfalse
                · intro _ _ hresolv
                  exact absurd hresolv hnres
                · intro x hx
                  rcases List.mem_cons.1 hx with hx | hx
                  · subst hx
                    exact clearCorrupted_corruptFree s b
                  · exact IH2 x hx
            | true =>
              cases ho : (updateImagePreviewBlock env s nb
                  (fetchImagePathToPreview env (clearCorruptedImagePreviewBlock s b).1.text)).1 with
              | some nb2 =>
                rw [scanCore_src_update_some env s _ prev b _ nb nb2 rest2 _ he hb hc rfl hpath
                  hnb (by rw [← ho])]
                obtain ⟨htext, hpathf⟩ := update_some_spec env s nb _ hwf ho
                have hfp := hpathf (artifact_mem_obj hnb)
                have hnb2Art : isImagePreviewBlock nb2 = true := by
                  rw [isImagePreviewBlock_text htext]
                  exact hnb
                have hEn2 : (updateImagePreviewBlock env s nb
                    (fetchImagePathToPreview env
                      (clearCorruptedImagePreviewBlock s b).1.text)).2.enablePreview = true := by
                  rw [(update_flags env s nb _).1]
                  exact he
                have hwf2 := update_cacheWF env s nb
                  (fetchImagePathToPreview env (clearCorruptedImagePreviewBlock s b).1.text)
                  hwf hpath
                obtain ⟨IH1, IH2, IH3, IH4⟩ := ih rest2 _ (some nb2) hlen3 hEn2 hwf2
                refine ⟨⟨?_, ?_, ?_, ?_, ?_⟩, ?_, IH3, ?_⟩
                · intro hfalse
                  rw [hb2na] at hfalse
                  cases hfalse
                · intro _ _ _
                  exact ⟨nb2, _, rfl, hnb2Art, hfp⟩
                · intro _
                  exact ⟨_, rfl, hb2na, hpath, hfp⟩
                · intro hnb2f
                  rw [hnb2Art] at hnb2f
                  cases hnb2f
                · exact invariantDoc_congr (fun q => update_resolvable_inv env s nb _ q) _ _ IH1
                · intro x hx
                  rcases List.mem_cons.1 hx with hx | hx
                  · subst hx
                    exact clearCorrupted_corruptFree s b
                  · rcases List.mem_cons.1 hx with hx | hx
                    · subst hx
                      exact corruptFree_artifact hnb2Art
                    · exact IH2 x hx
                · intro q
                  exact (IH4 q).trans (update_resolvable_inv env s nb _ q)
              | none =>
                rw [scanCore_src_update_none env s _ prev b _ nb rest2 _ he hb hc rfl hpath
                  hnb (by rw [← ho])]
                obtain ⟨hnres, hcache⟩ := update_none_spec env s nb _ hwf hpath ho
                have hEn2 : (updateImagePreviewBlock env s nb
                    (fetchImagePathToPreview env
                      (clearCorruptedImagePreviewBlock s b).1.text)).2.enablePreview = true := by
                  rw [(update_flags env s nb _).1]
                  exact he
                have hwf2 : CacheWF (updateImagePreviewBlock env s nb
                    (fetchImagePathToPreview env
                      (clearCorruptedImagePreviewBlock s b).1.text)).2.cache := by
                  rw [hcache]
                  exact hwf
                obtain ⟨IH1, IH2, IH3, IH4⟩ := ih rest2 _ (some _) hlen3 hEn2 hwf2
                rw [hcache] at IH1 IH4
                refine ⟨⟨?_, ?_, IH1⟩, ?_, IH3, IH4⟩
                · intro hfalse
                  rw [hb2na] at hfalse
                  cases hfalse
                · intro _ _ hresolv
                  exact absurd hresolv hnres
                · intro x hx
                  rcases List.mem_cons.1 hx with hx | hx
                  · subst hx
                    exact clearCorrupted_corruptFree s b
                  · exact IH2 x hx

theorem update_noop (env : Env) (s : PState) (b : Block) (p : List MChar)
    (h : fetchImagePathFromPreviewBlock b = p) :
    updateImagePreviewBlock env s b p = (some b, s) := by
  rcases update_cases env s b p with ⟨h1, hh⟩ | ⟨h1, _, hh⟩ | ⟨h1, _, hh⟩
  · exact hh
  · exact absurd h h1
  · exact absurd h h1

theorem insert_fails (env : Env) (s : PState) (p : List MChar)
    (hwf : CacheWF s.cache) (hp : p ≠ []) (h : ¬ Resolvable env s.cache p) :
    (insertImagePreviewBlock env s p).1 = none ∧
      (insertImagePreviewBlock env s p).2.cache = s.cache := by
  rcases insert_cases env s p with ⟨h1, hh⟩ | ⟨h1, hh⟩
  · rw [hh]
    exact ⟨rfl, icrn_cache_of_empty env s p hp h1⟩
  · exact absurd ((icrn_name_empty_iff env s p hwf hp).2 h) h1

/-- Fixpoint lemma: a walk over a document that already satisfies the scan
invariant and is free of corruption changes neither the document nor the
cache. -/
theorem scanCore_fix_aux (env : Env) :
    ∀ n l (s : PState) prev, l.length ≤ n →
      s.enablePreview = true → CacheWF s.cache →
      InvariantDoc env s.cache prev l →
      (∀ b ∈ l, CorruptFree b) →
      (scanCore env s prev l).2 = l ∧ (scanCore env s prev l).1.cache = s.cache := by
  intro n
  induction n with
  | zero =>
    intro l s prev hlen he hwf hinv hcf
    have h0 : l = [] := List.eq_nil_of_length_eq_zero (Nat.le_zero.1 hlen)
    subst h0
    rw [scanCore_nil]
    exact ⟨rfl, rfl⟩
  | succ n ih =>
    intro l s prev hlen he hwf hinv hcf
    match l with
    | [] =>
      rw [scanCore_nil]
      exact ⟨rfl, rfl⟩
    | b :: rest =>
      have hlen2 : rest.length ≤ n := by simpa using hlen
      obtain ⟨hart, hsrc, hinv2⟩ := hinv
      have hcfRest : ∀ x ∈ rest, CorruptFree x := fun x hx => hcf x (List.mem_cons_of_mem b hx)
      cases hb : isImagePreviewBlock b with
      | true =>
        obtain ⟨pb, hprev, hpbna, hpne, hpeq⟩ := hart hb
        subst hprev
        have hv : isValidImagePreviewBlock env (some pb) b = true :=
          (isValid_iff env pb b).2 ⟨hb, hpne, hpeq⟩
        rw [scanCore_art_valid env s (some pb) b rest he hb hv]
        obtain ⟨IHa, IHb⟩ := ih rest s (some b) hlen2 he hwf hinv2 hcfRest
        refine ⟨?_, IHb⟩
        rw [IHa]
      | false =>
        have hc : clearCorruptedImagePreviewBlock s b = (b, s) :=
          clearCorrupted_skip s (hcf b (List.mem_cons_self b rest))
        rcases Decidable.em (fetchImagePathToPreview env b.text = []) with hpath | hpath
        · rw [scanCore_src_nopath env s prev b b rest he hb hc hpath]
          obtain ⟨IHa, IHb⟩ := ih rest s (some b) hlen2 he hwf hinv2 hcfRest
          refine ⟨?_, IHb⟩
          rw [IHa]
        · cases rest with
          | nil =>
            have hnres : ¬ Resolvable env s.cache (fetchImagePathToPreview env b.text) := by
              intro hres
              obtain ⟨art, rest2, habs, _, _⟩ := hsrc hb hpath hres
              cases habs
            obtain ⟨hN, hC⟩ := insert_fails env s _ hwf hpath hnres
            rw [scanCore_src_last_insert_none env s _ prev b b _ he hb hc rfl hpath
              (by rw [← hN])]
            exact ⟨rfl, hC⟩
          | cons nb rest2 =>
            have hlen3 : rest2.length ≤ n := by
              simp only [List.length_cons] at hlen
              omega
            obtain ⟨hart2, hsrc2, hinv3⟩ := hinv2
            cases hnb : isImagePreviewBlock nb with
            | true =>
              obtain ⟨pb2, hpb2, _, _, hps⟩ := hart2 hnb
              have hpb2b : pb2 = b := by injection hpb2 with h; exact h.symm
              rw [hpb2b] at hps
              rw [scanCore_src_update_some env s s prev b b nb nb rest2 _ he hb hc rfl hpath
                hnb (update_noop env s nb _ hps)]
              obtain ⟨IHa, IHb⟩ := ih rest2 s (some nb) hlen3 he hwf hinv3
                (fun x hx => hcfRest x (List.mem_cons_of_mem nb hx))
              refine ⟨?_, IHb⟩
              rw [IHa]
            | false =>
              have hnres : ¬ Resolvable env s.cache (fetchImagePathToPreview env b.text) := by
                intro hres
                obtain ⟨art, rest2x, habs, hartT, _⟩ := hsrc hb hpath hres
                have hart_nb : art = nb := by injection habs with h; exact h.symm
                subst hart_nb
                rw [hnb] at hartT
                cases hartT
              obtain ⟨hN, hC⟩ := insert_fails env s _ hwf hpath hnres
              rw [scanCore_src_insert_none env s _ prev b b nb rest2 _ he hb hc rfl hpath
                hnb (by rw [← hN])]
              have hEn2 : (insertImagePreviewBlock env s
                  (fetchImagePathToPreview env b.text)).2.enablePreview = true := by
                rw [(insert_flags env s _).1]
                exact he
              have hwf2 : CacheWF (insertImagePreviewBlock env s
                  (fetchImagePathToPreview env b.text)).2.cache := by
                rw [hC]
                exact hwf
              have hinv2' : InvariantDoc env (insertImagePreviewBlock env s
                  (fetchImagePathToPreview env b.text)).2.cache (some b) (nb :: rest2) := by
                rw [hC]
                exact ⟨hart2, hsrc2, hinv3⟩
              obtain ⟨IHa, IHb⟩ := ih (nb :: rest2) _ (some b) hlen2 hEn2 hwf2 hinv2' hcfRest
              rw [hC] at IHb
              refine ⟨?_, IHb⟩
              rw [IHa]

/-- Unfolding of `previewImages` for a state that is not scanning and has no
latched request: the guard passes, the walk runs, the guard is released and
neither latched branch fires. -/
theorem previewImages_run (env : Env) (s : PState)
    (h1 : s.isPreviewing = false) (h2 : s.requestCearBlocks = false)
    (h3 : s.requestRefreshBlocks = false) :
    previewImages env s =
      { (scanCore env { s with isPreviewing := true } none s.doc).1 with
          doc := (scanCore env { s with isPreviewing := true } none s.doc).2,
          isPreviewing := false } := by
  obtain ⟨f1, f2, f3, f4, f5, f6⟩ :=
    scanCore_flags env { s with isPreviewing := true } none s.doc
  have hc1 : (scanCore env { s with isPreviewing := true } none s.doc).1.requestCearBlocks
      = false := f3.trans h2
  have hc2 : (scanCore env { s with isPreviewing := true } none s.doc).1.requestRefreshBlocks
      = false := f4.trans h3
  rw [previewImages, if_neg (by rw [h1]; simp)]
  simp only [hc1, hc2, Bool.false_eq_true, if_false]

/-- Claim C1, amended.  After a run of `previewImages` from an idle state
(previewing enabled, no scan active, no latched clear or refresh request, and
a well-formed cache), the document satisfies the scan invariant: every image
preview block immediately follows a source block whose extracted image path
matches its stored path (so no orphaned preview block remains, and no two
preview blocks are adjacent, giving at most one per source block), and every
source block whose extracted path is non-empty and resolvable against the
pre-scan cache (already cached, or an existing local file that decodes) is
immediately followed by a matching image preview block.  A source block whose
path fails to resolve (pending download, decode failure) is not guaranteed a
preview block — that is the amendment forced by `c1_original_counterexample`. -/
theorem previewImages_invariant (env : Env) (s : PState)
    (h1 : s.isPreviewing = false) (h2 : s.requestCearBlocks = false)
    (h3 : s.requestRefreshBlocks = false) (h4 : s.enablePreview = true)
    (hwf : CacheWF s.cache) :
    InvariantDoc env s.cache none (previewImages env s).doc := by
  rw [previewImages_run env s h1 h2 h3]
  exact (scanCore_spec_aux env s.doc.length s.doc
    { s with isPreviewing := true } none le_rfl h4 hwf).1

/-- Witness for `previewImages_invariant` at a concrete document holding the
single source line `![a](u)` with an uncached remote url. -/
theorem previewImages_invariant_witness :
    InvariantDoc
      { fileExists := fun _ => false, decodeOk := fun _ => false,
        localImage := fun _ => 0, resolve := fun u => u } [] none
      (previewImages
        { fileExists := fun _ => false, decodeOk := fun _ => false,
          localImage := fun _ => 0, resolve := fun u => u }
        { doc := [{ text := [MChar.bang, MChar.lbrack, MChar.other 1, MChar.rbrack,
                            MChar.lparen, MChar.other 2, MChar.rparen], fmt := none }],
          cache := [], resources := [], modified := false, enablePreview := true,
          isPreviewing := false, requestCearBlocks := false,
          requestRefreshBlocks := false, timerActive := false,
          downloads := [], decodes := [] }).doc :=
  previewImages_invariant
    { fileExists := fun _ => false, decodeOk := fun _ => false,
      localImage := fun _ => 0, resolve := fun u => u }
    { doc := [{ text := [MChar.bang, MChar.lbrack, MChar.other 1, MChar.rbrack,
                        MChar.lparen, MChar.other 2, MChar.rparen], fmt := none }],
      cache := [], resources := [], modified := false, enablePreview := true,
      isPreviewing := false, requestCearBlocks := false,
      requestRefreshBlocks := false, timerActive := false,
      downloads := [], decodes := [] }
    rfl rfl rfl rfl (fun kv hkv => absurd hkv (List.not_mem_nil kv))

/-- Counterexample to claim C1 as stated: the document `![a](u)` with `u` a
remote, uncached url completes a scan (no latched request) with a non-empty
extracted reference and yet no ArtifactBlock at all — resolution failed, so
`insertImagePreviewBlock` inserted nothing. -/
theorem c1_original_counterexample :
    fetchImageUrlToPreview [MChar.bang, MChar.lbrack, MChar.other 1, MChar.rbrack,
        MChar.lparen, MChar.other 2, MChar.rparen] ≠ []
    ∧ (previewImages
        { fileExists := fun _ => false, decodeOk := fun _ => false,
          localImage := fun _ => 0, resolve := fun u => u }
        { doc := [{ text := [MChar.bang, MChar.lbrack, MChar.other 1, MChar.rbrack,
                            MChar.lparen, MChar.other 2, MChar.rparen], fmt := none }],
          cache := [], resources := [], modified := false, enablePreview := true,
          isPreviewing := false, requestCearBlocks := false,
          requestRefreshBlocks := false, timerActive := false,
          downloads := [], decodes := [] }).doc
      = [{ text := [MChar.bang, MChar.lbrack, MChar.other 1, MChar.rbrack,
                    MChar.lparen, MChar.other 2, MChar.rparen], fmt := none }]
    ∧ (∀ b ∈ (previewImages
        { fileExists := fun _ => false, decodeOk := fun _ => false,
          localImage := fun _ => 0, resolve := fun u => u }
        { doc := [{ text := [MChar.bang, MChar.lbrack, MChar.other 1, MChar.rbrack,
                            MChar.lparen, MChar.other 2, MChar.rparen], fmt := none }],
          cache := [], resources := [], modified := false, enablePreview := true,
          isPreviewing := false, requestCearBlocks := false,
          requestRefreshBlocks := false, timerActive := false,
          downloads := [], decodes := [] }).doc, isImagePreviewBlock b = false) := by
  decide

/-- Claim C2: running the full scan twice in succession from an idle state,
with nothing happening in between, leaves the document after the second scan
identical to the document after the first — the second scan inserts no block,
removes no block and changes no block. -/
theorem previewImages_idempotent (env : Env) (s : PState)
    (h1 : s.isPreviewing = false) (h2 : s.requestCearBlocks = false)
    (h3 : s.requestRefreshBlocks = false) (h4 : s.enablePreview = true)
    (hwf : CacheWF s.cache) :
    (previewImages env (previewImages env s)).doc = (previewImages env s).doc := by
  obtain ⟨I1, I2, I3, I4⟩ := scanCore_spec_aux env s.doc.length s.doc
    { s with isPreviewing := true } none le_rfl h4 hwf
  obtain ⟨f1, f2, f3, f4, f5, f6⟩ :=
    scanCore_flags env { s with isPreviewing := true } none s.doc
  rw [previewImages_run env s h1 h2 h3]
  rw [previewImages_run env
    { (scanCore env { s with isPreviewing := true } none s.doc).1 with
        doc := (scanCore env { s with isPreviewing := true } none s.doc).2,
        isPreviewing := false }
    rfl (f3.trans h2) (f4.trans h3)]
  exact (scanCore_fix_aux env
    (scanCore env { s with isPreviewing := true } none s.doc).2.length
    (scanCore env { s with isPreviewing := true } none s.doc).2
    { { (scanCore env { s with isPreviewing := true } none s.doc).1 with
          doc := (scanCore env { s with isPreviewing := true } none s.doc).2,
          isPreviewing := false } with
        isPreviewing := true }
    none le_rfl (f1.trans h4) I3
    (invariantDoc_congr (fun q => (I4 q).symm) _ none I1) I2).1

/-- Witness for `previewImages_idempotent` at a concrete two-block document:
a source line `![a](u)` for a local decodable file followed by unrelated
text, so the first scan inserts a preview block and the second leaves the
document unchanged. -/
theorem previewImages_idempotent_witness :
    (previewImages
      { fileExists := fun _ => true, decodeOk := fun _ => true,
        localImage := fun _ => 7, resolve := fun u => u }
      (previewImages
        { fileExists := fun _ => true, decodeOk := fun _ => true,
          localImage := fun _ => 7, resolve := fun u => u }
        { doc := [{ text := [MChar.bang, MChar.lbrack, MChar.other 1, MChar.rbrack,
                            MChar.lparen, MChar.other 2, MChar.rparen], fmt := none },
                  { text := [MChar.other 3], fmt := none }],
          cache := [], resources := [], modified := false, enablePreview := true,
          isPreviewing := false, requestCearBlocks := false,
          requestRefreshBlocks := false, timerActive := false,
          downloads := [], decodes := [] })).doc
    = (previewImages
        { fileExists := fun _ => true, decodeOk := fun _ => true,
          localImage := fun _ => 7, resolve := fun u => u }
        { doc := [{ text := [MChar.bang, MChar.lbrack, MChar.other 1, MChar.rbrack,
                            MChar.lparen, MChar.other 2, MChar.rparen], fmt := none },
                  { text := [MChar.other 3], fmt := none }],
          cache := [], resources := [], modified := false, enablePreview := true,
          isPreviewing := false, requestCearBlocks := false,
          requestRefreshBlocks := false, timerActive := false,
          downloads := [], decodes := [] }).doc :=
  previewImages_idempotent
    { fileExists := fun _ => true, decodeOk := fun _ => true,
      localImage := fun _ => 7, resolve := fun u => u }
    { doc := [{ text := [MChar.bang, MChar.lbrack, MChar.other 1, MChar.rbrack,
                        MChar.lparen, MChar.other 2, MChar.rparen], fmt := none },
              { text := [MChar.other 3], fmt := none }],
      cache := [], resources := [], modified := false, enablePreview := true,
      isPreviewing := false, requestCearBlocks := false,
      requestRefreshBlocks := false, timerActive := false,
      downloads := [], decodes := [] }
    rfl rfl rfl rfl (fun kv hkv => absurd hkv (List.not_mem_nil kv))

/-! Claim C3: the one-reference contract of the extractor. -/

theorem matchImageAt_ne_nil {l r : List MChar} (h : matchImageAt l = some r) :
    r ≠ [] := by
  unfold matchImageAt at h
  split at h
  · split at h
    · split at h
      · injection h with h
        subst h
        simp
      · cases h
    · cases h
  · cases h

theorem matchPositions_sorted (t : List MChar) :
    (matchPositions t).Pairwise (· < ·) :=
  (List.pairwise_lt_range t.length).sublist (List.filter_sublist _)

theorem matchPositions_isSome {t : List MChar} {i : Nat}
    (h : i ∈ matchPositions t) : (matchImageAt (t.drop i)).isSome = true :=
  (List.mem_filter.1 h).2

/-- Claim C3: `fetchImageUrlToPreview` returns a non-empty captured reference
exactly when the image pattern matches at exactly one position of the line;
at zero or several positions it returns the empty string, and then the
resolved image path is empty as well, so the scan neither inserts nor updates
a preview block for that line. -/
theorem fetchImageUrlToPreview_contract (t : List MChar) :
    (fetchImageUrlToPreview t ≠ [] ↔ (matchPositions t).length = 1)
    ∧ (∀ i r, matchPositions t = [i] → matchImageAt (t.drop i) = some r →
        fetchImageUrlToPreview t = r)
    ∧ ((matchPositions t).length ≠ 1 → fetchImageUrlToPreview t = [] ∧
        ∀ env : Env, fetchImagePathToPreview env t = []) := by
  cases hps : matchPositions t with
  | nil =>
    have hurl : fetchImageUrlToPreview t = [] := by
      rw [fetchImageUrlToPreview, hps]
      rfl
    refine ⟨?_, ?_, ?_⟩
    · rw [hurl]
      simp
    · intro i r hi
      simp at hi
    · intro _
      refine ⟨hurl, fun env => ?_⟩
      rw [fetchImagePathToPreview]
      simp [hurl]
  | cons i rest =>
    cases rest with
    | nil =>
      have hmem : i ∈ matchPositions t := by
        rw [hps]
        exact List.mem_singleton.2 rfl
      obtain ⟨r, hr⟩ := Option.isSome_iff_exists.1 (matchPositions_isSome hmem)
      have hurl : fetchImageUrlToPreview t = r := by
        rw [fetchImageUrlToPreview, hps]
        simp only [List.head?_cons, List.getLast?_singleton]
        rw [if_pos trivial, hr]
      refine ⟨?_, ?_, ?_⟩
      · rw [hurl]
        constructor
        · intro _
          rfl
        · intro _
          exact matchImageAt_ne_nil hr
      · intro j r2 hj hr2
        have hij : i = j := by injection hj with h
        subst hij
        rw [hurl]
        injection hr.symm.trans hr2 with h
      · intro hlen
        exact absurd rfl hlen
    | cons j rest2 =>
      have hsorted := matchPositions_sorted t
      rw [hps] at hsorted
      have hne : ∀ x, (j :: rest2).getLast? = some x → i ≠ x := by
        intro x hx
        have hmemx : x ∈ j :: rest2 := List.mem_of_mem_getLast? hx
        have hlt := (List.pairwise_cons.1 hsorted).1 x hmemx
        omega
      have hurl : fetchImageUrlToPreview t = [] := by
        rw [fetchImageUrlToPreview, hps, List.getLast?_cons_cons]
        cases hlast : (j :: rest2).getLast? with
        | none =>
          rw [List.getLast?_eq_none_iff] at hlast
          cases hlast
        | some x =>
          simp only [List.head?_cons]
          rw [if_neg (hne x hlast)]
      refine ⟨?_, ?_, ?_⟩
      · constructor
        · intro h
          exact absurd hurl h
        · intro h
          simp only [List.length_cons] at h
          omega
      · intro k r2 hk
        simp at hk
      · intro _
        refine ⟨hurl, fun env => ?_⟩
        rw [fetchImagePathToPreview]
        simp [hurl]

/-- Witness for `fetchImageUrlToPreview_contract`: the two-reference line
`![a](u)![b](v)` has two match positions and yields the empty url, while the
one-reference line `![a](u)` yields its captured reference. -/
theorem fetchImageUrlToPreview_contract_witness :
    ((matchPositions [MChar.bang, MChar.lbrack, MChar.other 1, MChar.rbrack,
        MChar.lparen, MChar.other 2, MChar.rparen, MChar.bang, MChar.lbrack,
        MChar.other 3, MChar.rbrack, MChar.lparen, MChar.other 4,
        MChar.rparen]).length ≠ 1
      ∧ fetchImageUrlToPreview [MChar.bang, MChar.lbrack, MChar.other 1, MChar.rbrack,
          MChar.lparen, MChar.other 2, MChar.rparen, MChar.bang, MChar.lbrack,
          MChar.other 3, MChar.rbrack, MChar.lparen, MChar.other 4,
          MChar.rparen] = [])
    ∧ (matchPositions [MChar.bang, MChar.lbrack, MChar.other 1, MChar.rbrack,
        MChar.lparen, MChar.other 2, MChar.rparen] = [0]
      ∧ fetchImageUrlToPreview [MChar.bang, MChar.lbrack, MChar.other 1, MChar.rbrack,
          MChar.lparen, MChar.other 2, MChar.rparen] = [MChar.other 2]) :=
  ⟨⟨by decide,
    ((fetchImageUrlToPreview_contract _).2.2 (by decide)).1⟩,
   ⟨by decide,
    (fetchImageUrlToPreview_contract _).2.1 0 [MChar.other 2] (by decide) (by decide)⟩⟩

/-! Claim C8: the corruption cleanup. -/

/-- Claim C8: on a block mixing object replacement characters with
non-whitespace text, the cleanup deletes exactly the object replacement
characters (one edit block over the recorded positions), keeping every other
character in order and restoring the document's modified flag; a block made
of nothing but whitespace and object replacement characters is left
untouched. -/
theorem clearCorrupted_contract (s : PState) (b : Block) :
    ((MChar.obj ∈ b.text ∧ ∃ c ∈ b.text, c ≠ MChar.obj ∧ MChar.isSpace c = false) →
      (clearCorruptedImagePreviewBlock s b).1.text
          = b.text.filter (fun c => !decide (c = MChar.obj))
      ∧ (clearCorruptedImagePreviewBlock s b).1.fmt = b.fmt
      ∧ (clearCorruptedImagePreviewBlock s b).2 = s)
    ∧ ((∀ c ∈ b.text, c = MChar.obj ∨ MChar.isSpace c = true) →
      clearCorruptedImagePreviewBlock s b = (b, s)) := by
  constructor
  · rintro ⟨h1, c, hc, hc1, hc2⟩
    have hnc : ¬ CorruptFree b := by
      rintro (hcf | hcf)
      · exact (objPositions_eq_nil_iff.1 hcf) h1
      · have hall := List.all_eq_true.1 hcf c hc
        simp only [Bool.or_eq_true, decide_eq_true_eq] at hall
        rcases hall with hh | hh
        · exact hc1 hh
        · rw [hc2] at hh
          cases hh
    rw [clearCorrupted_strip s hnc]
    exact ⟨rfl, rfl, rfl⟩
  · intro h
    apply clearCorrupted_skip
    right
    rw [onlySpacesB, List.all_eq_true]
    intro c hc
    rcases h c hc with hh | hh
    · simp [hh]
    · simp [hh]

/-- Witness for `clearCorrupted_contract`: the design document's example
`"abc" + placeholder + "def"` becomes `"abcdef"` with the modified flag (and
the whole engine state) unchanged. -/
theorem clearCorrupted_contract_witness :
    (clearCorruptedImagePreviewBlock
        { doc := [], cache := [], resources := [], modified := false,
          enablePreview := true, isPreviewing := false, requestCearBlocks := false,
          requestRefreshBlocks := false, timerActive := false,
          downloads := [], decodes := [] }
        { text := [MChar.other 1, MChar.other 2, MChar.other 3, MChar.obj,
                   MChar.other 4, MChar.other 5, MChar.other 6], fmt := none }).1.text
      = [MChar.other 1, MChar.other 2, MChar.other 3,
         MChar.other 4, MChar.other 5, MChar.other 6]
    ∧ (clearCorruptedImagePreviewBlock
        { doc := [], cache := [], resources := [], modified := false,
          enablePreview := true, isPreviewing := false, requestCearBlocks := false,
          requestRefreshBlocks := false, timerActive := false,
          downloads := [], decodes := [] }
        { text := [MChar.other 1, MChar.other 2, MChar.other 3, MChar.obj,
                   MChar.other 4, MChar.other 5, MChar.other 6], fmt := none }).2.modified
      = false :=
  ⟨((clearCorrupted_contract _ _).1 ⟨by decide, by decide⟩).1.trans (by decide),
   by rw [((clearCorrupted_contract _ _).1 ⟨by decide, by decide⟩).2.2]⟩

/-! Claim C10: classification of image preview blocks. -/

/-- Claim C10: a block whose text is one object replacement character
surrounded only by whitespace is classified as an image preview block, and
the corruption cleanup leaves it alone (it is handled by the orphan logic of
the scan, not as a corrupted source block); a block containing two or more
object replacement characters, or an object replacement character mixed with
non-whitespace text, is never classified as an image preview block. -/
theorem isImagePreviewBlock_contract (s : PState) (b : Block) (l1 l2 : List MChar)
    (f : Option ImgFmt) :
    ((∀ c ∈ l1, MChar.isSpace c = true) → (∀ c ∈ l2, MChar.isSpace c = true) →
      isImagePreviewBlock { text := l1 ++ MChar.obj :: l2, fmt := f } = true
      ∧ clearCorruptedImagePreviewBlock s { text := l1 ++ MChar.obj :: l2, fmt := f }
          = ({ text := l1 ++ MChar.obj :: l2, fmt := f }, s))
    ∧ (2 ≤ b.text.countP (fun c => decide (c = MChar.obj)) →
        isImagePreviewBlock b = false)
    ∧ ((MChar.obj ∈ b.text ∧ ∃ c ∈ b.text, c ≠ MChar.obj ∧ MChar.isSpace c = false) →
        isImagePreviewBlock b = false) := by
  refine ⟨?_, ?_, ?_⟩
  · intro h1 h2
    constructor
    · rw [isImagePreviewBlock_iff]
      exact trimmed_spaces_obj h1 h2
    · apply clearCorrupted_skip
      right
      rw [onlySpacesB, List.all_eq_true]
      intro c hc
      simp only [List.mem_append, List.mem_cons] at hc
      rcases hc with hc | hc | hc
      · simp [h1 c hc]
      · simp [hc]
      · simp [h2 c hc]
  · intro hcount
    rcases Bool.eq_false_or_eq_true (isImagePreviewBlock b) with hb | hb
    · exfalso
      have htr := isImagePreviewBlock_iff.1 hb
      have hcnt := countP_obj_trimmed b.text
      rw [htr] at hcnt
      simp at hcnt
      omega
    · exact hb
  · rintro ⟨h1, c, hc, hc1, hc2⟩
    rcases Bool.eq_false_or_eq_true (isImagePreviewBlock b) with hb | hb
    · exfalso
      rcases artifact_chars hb c hc with hh | hh
      · exact hc1 hh
      · rw [hc2] at hh
        cases hh
    · exact hb

/-- Witness for `isImagePreviewBlock_contract`: a placeholder surrounded by
single whitespace characters is an image preview block and survives the
cleanup untouched. -/
theorem isImagePreviewBlock_contract_witness :
    isImagePreviewBlock { text := [MChar.space, MChar.obj, MChar.space], fmt := none } = true
    ∧ clearCorruptedImagePreviewBlock
        { doc := [], cache := [], resources := [], modified := true,
          enablePreview := true, isPreviewing := false, requestCearBlocks := false,
          requestRefreshBlocks := false, timerActive := false,
          downloads := [], decodes := [] }
        { text := [MChar.space, MChar.obj, MChar.space], fmt := none }
      = ({ text := [MChar.space, MChar.obj, MChar.space], fmt := none },
         { doc := [], cache := [], resources := [], modified := true,
           enablePreview := true, isPreviewing := false, requestCearBlocks := false,
           requestRefreshBlocks := false, timerActive := false,
           downloads := [], decodes := [] }) :=
  (isImagePreviewBlock_contract
    { doc := [], cache := [], resources := [], modified := true,
      enablePreview := true, isPreviewing := false, requestCearBlocks := false,
      requestRefreshBlocks := false, timerActive := false,
      downloads := [], decodes := [] }
    { text := [], fmt := none } [MChar.space] [MChar.space] none).1
    (by decide) (by decide)

/-! Claim C5: the update primitive. -/

/-- Claim C5, amended: updating an existing preview block with a key equal to
its stored `ImagePath` changes nothing; with a different key whose cache
resolution fails it removes the block and leaves the modified flag as it was;
with a different key whose resolution succeeds it rewrites the image format
in place — but this path marks the document modified (the
`QTextCursor::setCharFormat` edit is not bracketed by a save/restore of the
flag in the source), so the modified flag is NOT preserved there, contrary to
the claim as stated (see `c5_original_counterexample`). -/
theorem updateImagePreviewBlock_contract (env : Env) (s : PState) (b : Block)
    (p : List MChar) :
    (fetchImagePathFromPreviewBlock b = p →
      updateImagePreviewBlock env s b p = (some b, s))
    ∧ (fetchImagePathFromPreviewBlock b ≠ p → (imageCacheResourceName env s p).1 = [] →
        (updateImagePreviewBlock env s b p).1 = none
        ∧ (updateImagePreviewBlock env s b p).2.modified = s.modified)
    ∧ (fetchImagePathFromPreviewBlock b ≠ p → (imageCacheResourceName env s p).1 ≠ [] →
        (updateImagePreviewBlock env s b p).1
            = some { text := b.text,
                     fmt := some { name := (imageCacheResourceName env s p).1, path := p } }
        ∧ (updateImagePreviewBlock env s b p).2.modified = true) := by
  refine ⟨fun h => update_noop env s b p h, ?_, ?_⟩
  · intro hne hzero
    rcases update_cases env s b p with ⟨h1, hh⟩ | ⟨h1, h2, hh⟩ | ⟨h1, h2, hh⟩
    · exact absurd h1 hne
    · rw [hh]
      exact ⟨rfl, icrn_modified env s p⟩
    · exact absurd hzero h2
  · intro hne hnz
    rcases update_cases env s b p with ⟨h1, hh⟩ | ⟨h1, h2, hh⟩ | ⟨h1, h2, hh⟩
    · exact absurd h1 hne
    · exact absurd h2 hnz
    · rw [hh]
      exact ⟨rfl, rfl⟩

/-- Witness for `updateImagePreviewBlock_contract`: a preview block storing
path 9 updated to the resolvable local path 5 is rewritten in place and the
document is marked modified. -/
theorem updateImagePreviewBlock_contract_witness :
    (updateImagePreviewBlock
        { fileExists := fun _ => true, decodeOk := fun _ => true,
          localImage := fun _ => 5, resolve := fun u => u }
        { doc := [], cache := [], resources := [], modified := false,
          enablePreview := true, isPreviewing := false, requestCearBlocks := false,
          requestRefreshBlocks := false, timerActive := false,
          downloads := [], decodes := [] }
        { text := [MChar.obj], fmt := some { name := [MChar.other 9], path := [MChar.other 9] } }
        [MChar.other 5]).1
      = some { text := [MChar.obj],
               fmt := some { name := (imageCacheResourceName
                  { fileExists := fun _ => true, decodeOk := fun _ => true,
                    localImage := fun _ => 5, resolve := fun u => u }
                  { doc := [], cache := [], resources := [], modified := false,
                    enablePreview := true, isPreviewing := false,
                    requestCearBlocks := false, requestRefreshBlocks := false,
                    timerActive := false, downloads := [], decodes := [] }
                  [MChar.other 5]).1, path := [MChar.other 5] } }
    ∧ (updateImagePreviewBlock
        { fileExists := fun _ => true, decodeOk := fun _ => true,
          localImage := fun _ => 5, resolve := fun u => u }
        { doc := [], cache := [], resources := [], modified := false,
          enablePreview := true, isPreviewing := false, requestCearBlocks := false,
          requestRefreshBlocks := false, timerActive := false,
          downloads := [], decodes := [] }
        { text := [MChar.obj], fmt := some { name := [MChar.other 9], path := [MChar.other 9] } }
        [MChar.other 5]).2.modified = true :=
  (updateImagePreviewBlock_contract _ _ _ _).2.2 (by decide) (by decide)

/-- Counterexample to claim C5 as stated: with the modified flag initially
clear, updating a preview block from stored path 9 to the resolvable path 5
succeeds and leaves the modified flag SET — the in-place rewrite does not
preserve the flag. -/
theorem c5_original_counterexample :
    fetchImagePathFromPreviewBlock
        { text := [MChar.obj], fmt := some { name := [MChar.other 9], path := [MChar.other 9] } }
      ≠ [MChar.other 5]
    ∧ (imageCacheResourceName
        { fileExists := fun _ => true, decodeOk := fun _ => true,
          localImage := fun _ => 5, resolve := fun u => u }
        { doc := [], cache := [], resources := [], modified := false,
          enablePreview := true, isPreviewing := false, requestCearBlocks := false,
          requestRefreshBlocks := false, timerActive := false,
          downloads := [], decodes := [] }
        [MChar.other 5]).1 ≠ []
    ∧ (updateImagePreviewBlock
        { fileExists := fun _ => true, decodeOk := fun _ => true,
          localImage := fun _ => 5, resolve := fun u => u }
        { doc := [], cache := [], resources := [], modified := false,
          enablePreview := true, isPreviewing := false, requestCearBlocks := false,
          requestRefreshBlocks := false, timerActive := false,
          downloads := [], decodes := [] }
        { text := [MChar.obj], fmt := some { name := [MChar.other 9], path := [MChar.other 9] } }
        [MChar.other 5]).1.isSome = true
    ∧ (updateImagePreviewBlock
        { fileExists := fun _ => true, decodeOk := fun _ => true,
          localImage := fun _ => 5, resolve := fun u => u }
        { doc := [], cache := [], resources := [], modified := false,
          enablePreview := true, isPreviewing := false, requestCearBlocks := false,
          requestRefreshBlocks := false, timerActive := false,
          downloads := [], decodes := [] }
        { text := [MChar.obj], fmt := some { name := [MChar.other 9], path := [MChar.other 9] } }
        [MChar.other 5]).2.modified = true := by
  decide

/-! Claim C6: local decode failure. -/

/-- Claim C6, amended: for a key naming an existing local file whose decode
fails, `imageCacheResourceName` returns the empty name, caches nothing and
issues no download — and the same happens on the next call with the same key;
but the synchronous decode IS re-attempted on every such call (the failure is
not memoized), contrary to the claim's "no re-decode" — see
`c6_original_counterexample`. -/
theorem imageCacheResourceName_decode_failure (env : Env) (s : PState) (p : List MChar)
    (h1 : cacheLookup s.cache p = none) (h2 : env.fileExists p = true)
    (h3 : env.decodeOk p = false) :
    (imageCacheResourceName env s p).1 = []
    ∧ (imageCacheResourceName env s p).2 = { s with decodes := p :: s.decodes }
    ∧ (imageCacheResourceName env (imageCacheResourceName env s p).2 p).1 = []
    ∧ (imageCacheResourceName env (imageCacheResourceName env s p).2 p).2
        = { s with decodes := p :: p :: s.decodes }
    ∧ (imageCacheResourceName env (imageCacheResourceName env s p).2 p).2.downloads
        = s.downloads := by
  have hfirst : imageCacheResourceName env s p = ([], { s with decodes := p :: s.decodes }) := by
    rcases icrn_cases env s p with ⟨name, heq, hh⟩ | ⟨heq, hex, hdec, hh⟩ |
      ⟨heq, hex, hdec, hh⟩ | ⟨heq, hex, hh⟩
    · rw [heq] at h1; cases h1
    · rw [hdec] at h3; cases h3
    · exact hh
    · rw [hex] at h2; cases h2
  have h1b : cacheLookup ({ s with decodes := p :: s.decodes } : PState).cache p = none := h1
  have hsecond : imageCacheResourceName env ({ s with decodes := p :: s.decodes } : PState) p
      = ([], { s with decodes := p :: p :: s.decodes }) := by
    rcases icrn_cases env ({ s with decodes := p :: s.decodes } : PState) p with
      ⟨name, heq, hh⟩ | ⟨heq, hex, hdec, hh⟩ | ⟨heq, hex, hdec, hh⟩ | ⟨heq, hex, hh⟩
    · rw [h1b] at heq; cases heq
    · rw [hdec] at h3; cases h3
    · exact hh
    · rw [hex] at h2; cases h2
  rw [hfirst]
  refine ⟨rfl, rfl, ?_, ?_, ?_⟩
  · rw [hsecond]
  · rw [hsecond]
  · rw [hsecond]

/-- Witness for `imageCacheResourceName_decode_failure` at a concrete
undecodable local file. -/
theorem imageCacheResourceName_decode_failure_witness :
    (imageCacheResourceName
        { fileExists := fun _ => true, decodeOk := fun _ => false,
          localImage := fun _ => 0, resolve := fun u => u }
        { doc := [], cache := [], resources := [], modified := false,
          enablePreview := true, isPreviewing := false, requestCearBlocks := false,
          requestRefreshBlocks := false, timerActive := false,
          downloads := [], decodes := [] }
        [MChar.other 1]).1 = []
    ∧ (imageCacheResourceName
        { fileExists := fun _ => true, decodeOk := fun _ => false,
          localImage := fun _ => 0, resolve := fun u => u }
        { doc := [], cache := [], resources := [], modified := false,
          enablePreview := true, isPreviewing := false, requestCearBlocks := false,
          requestRefreshBlocks := false, timerActive := false,
          downloads := [], decodes := [] }
        [MChar.other 1]).2
      = { doc := [], cache := [], resources := [], modified := false,
          enablePreview := true, isPreviewing := false, requestCearBlocks := false,
          requestRefreshBlocks := false, timerActive := false,
          downloads := [], decodes := [[MChar.other 1]] } :=
  ⟨(imageCacheResourceName_decode_failure
      { fileExists := fun _ => true, decodeOk := fun _ => false,
        localImage := fun _ => 0, resolve := fun u => u }
      { doc := [], cache := [], resources := [], modified := false,
        enablePreview := true, isPreviewing := false, requestCearBlocks := false,
        requestRefreshBlocks := false, timerActive := false,
        downloads := [], decodes := [] }
      [MChar.other 1] rfl rfl rfl).1,
   (imageCacheResourceName_decode_failure
      { fileExists := fun _ => true, decodeOk := fun _ => false,
        localImage := fun _ => 0, resolve := fun u => u }
      { doc := [], cache := [], resources := [], modified := false,
        enablePreview := true, isPreviewing := false, requestCearBlocks := false,
        requestRefreshBlocks := false, timerActive := false,
        downloads := [], decodes := [] }
      [MChar.other 1] rfl rfl rfl).2.1⟩

/-- Counterexample to claim C6 as stated: the second call with the same key
performs a second synchronous decode attempt (the decode trace grows from one
entry to two), so a re-decode IS performed for that key. -/
theorem c6_original_counterexample :
    (imageCacheResourceName
        { fileExists := fun _ => true, decodeOk := fun _ => false,
          localImage := fun _ => 0, resolve := fun u => u }
        { doc := [], cache := [], resources := [], modified := false,
          enablePreview := true, isPreviewing := false, requestCearBlocks := false,
          requestRefreshBlocks := false, timerActive := false,
          downloads := [], decodes := [] }
        [MChar.other 1]).2.decodes = [[MChar.other 1]]
    ∧ (imageCacheResourceName
        { fileExists := fun _ => true, decodeOk := fun _ => false,
          localImage := fun _ => 0, resolve := fun u => u }
        (imageCacheResourceName
          { fileExists := fun _ => true, decodeOk := fun _ => false,
            localImage := fun _ => 0, resolve := fun u => u }
          { doc := [], cache := [], resources := [], modified := false,
            enablePreview := true, isPreviewing := false, requestCearBlocks := false,
            requestRefreshBlocks := false, timerActive := false,
            downloads := [], decodes := [] }
          [MChar.other 1]).2
        [MChar.other 1]).2.decodes = [[MChar.other 1], [MChar.other 1]] := by
  decide

/-! Claim C7: the download race. -/

theorem countKey_eq_zero {cache : List (List MChar × List MChar)} {k : List MChar}
    (h : cacheLookup cache k = none) : countKey cache k = 0 := by
  rw [countKey, List.countP_eq_zero]
  intro kv hkv
  simp only [decide_eq_true_eq]
  exact cacheLookup_eq_none_iff.1 h kv hkv

theorem countKey_cons (kv : List MChar × List MChar)
    (cache : List (List MChar × List MChar)) (k : List MChar) :
    countKey (kv :: cache) k = countKey cache k + (if kv.1 = k then 1 else 0) := by
  rw [countKey, countKey, List.countP_cons]
  by_cases h : kv.1 = k
  · simp [h]
  · simp [h]

/-- A download completion for an already-cached url changes nothing at all. -/
theorem imageDownloaded_cached (s : PState) (ok : Bool) (img : Nat) (url : List MChar)
    (h : cacheLookup s.cache url ≠ none) : imageDownloaded s ok img url = s := by
  rw [imageDownloaded]
  cases ok with
  | false => simp
  | true =>
    simp only [if_pos rfl]
    cases hl : cacheLookup s.cache url with
    | none => exact absurd hl h
    | some v => rfl

theorem engineStep_count (env : Env) (k : List MChar) (hk : env.fileExists k = false)
    (s : PState) (op : CacheOp) (hc : countKey s.cache k ≤ 1) :
    countKey (engineStep env s op).cache k ≤ 1 := by
  cases op with
  | resolve p =>
    show countKey (imageCacheResourceName env s p).2.cache k ≤ 1
    rcases icrn_cases env s p with ⟨name, heq, hh⟩ | ⟨heq, hex, hdec, hh⟩ |
      ⟨heq, hex, hdec, hh⟩ | ⟨heq, hex, hh⟩ <;> rw [hh]
    · exact hc
    · have hpk : p ≠ k := by
        intro hpe
        subst hpe
        rw [hex] at hk
        cases hk
      rw [countKey_cons]
      simp [hpk, hc]
    · exact hc
    · exact hc
  | downloaded ok img url =>
    show countKey (imageDownloaded s ok img url).cache k ≤ 1
    rw [imageDownloaded]
    cases ok with
    | false => simpa using hc
    | true =>
      simp only [if_pos rfl]
      cases hl : cacheLookup s.cache url with
      | some v => exact hc
      | none =>
        rw [if_pos trivial]
        show countKey ((url, imagePathToCacheResourceName url) :: s.cache) k ≤ 1
        rw [countKey_cons]
        by_cases hu : url = k
        · subst hu
          rw [countKey_eq_zero hl]
          simp [imagePathToCacheResourceName]
        · simp only [imagePathToCacheResourceName]
          rw [if_neg hu]
          simpa using hc

theorem engineStep_stable (env : Env) (k v : List MChar)
    (s : PState) (op : CacheOp) (hv : cacheLookup s.cache k = some v) :
    cacheLookup (engineStep env s op).cache k = some v := by
  cases op with
  | resolve p =>
    show cacheLookup (imageCacheResourceName env s p).2.cache k = some v
    rcases icrn_cases env s p with ⟨name, heq, hh⟩ | ⟨heq, hex, hdec, hh⟩ |
      ⟨heq, hex, hdec, hh⟩ | ⟨heq, hex, hh⟩ <;> rw [hh]
    · exact hv
    · have hpk : p ≠ k := by
        intro hpe
        subst hpe
        rw [heq] at hv
        cases hv
      simp only
      rw [cacheLookup, if_neg]
      · exact hv
      · exact hpk
    · exact hv
    · exact hv
  | downloaded ok img url =>
    show cacheLookup (imageDownloaded s ok img url).cache k = some v
    rw [imageDownloaded]
    cases ok with
    | false => simpa using hv
    | true =>
      simp only [if_pos rfl]
      cases hl : cacheLookup s.cache url with
      | some w => exact hv
      | none =>
        have huk : url ≠ k := by
          intro hue
          subst hue
          rw [hl] at hv
          cases hv
        rw [if_pos trivial]
        show cacheLookup ((url, imagePathToCacheResourceName url) :: s.cache) k = some v
        rw [cacheLookup, if_neg]
        · exact hv
        · exact huk

/-- Claim C7: for a remote key, across any interleaving of resolutions and
download completions the cache keeps at most one entry for the key; once an
entry exists its value never changes (the first successful registration
wins); and a download completion for an already-cached key is discarded
without modifying anything — cache, resources or any other state. -/
theorem downloadRace_contract (env : Env) (k : List MChar) (ops : List CacheOp)
    (s : PState) (hk : env.fileExists k = false) (hcount : countKey s.cache k ≤ 1) :
    countKey ((ops.foldl (engineStep env) s)).cache k ≤ 1
    ∧ (∀ v, cacheLookup s.cache k = some v →
        cacheLookup ((ops.foldl (engineStep env) s)).cache k = some v)
    ∧ (∀ (t : PState) (ok : Bool) (img : Nat), cacheLookup t.cache k ≠ none →
        imageDownloaded t ok img k = t) := by
  refine ⟨?_, ?_, fun t ok img h => imageDownloaded_cached t ok img k h⟩
  · induction ops generalizing s with
    | nil => exact hcount
    | cons op ops ih =>
      rw [List.foldl_cons]
      exact ih (engineStep env s op) (engineStep_count env k hk s op hcount)
  · induction ops generalizing s with
    | nil => exact fun v hv => hv
    | cons op ops ih =>
      intro v hv
      rw [List.foldl_cons]
      exact ih (engineStep env s op)
        (engineStep_count env k hk s op hcount)
        v (engineStep_stable env k v s op hv)

/-- Witness for `downloadRace_contract`: two completed downloads of the same
remote key followed by a resolution leave exactly one cache entry. -/
theorem downloadRace_contract_witness :
    countKey (([CacheOp.downloaded true 3 [MChar.other 1],
                CacheOp.downloaded true 4 [MChar.other 1],
                CacheOp.resolve [MChar.other 1]].foldl
        (engineStep { fileExists := fun _ => false, decodeOk := fun _ => false,
                      localImage := fun _ => 0, resolve := fun u => u })
        { doc := [], cache := [], resources := [], modified := false,
          enablePreview := true, isPreviewing := false, requestCearBlocks := false,
          requestRefreshBlocks := false, timerActive := false,
          downloads := [], decodes := [] }).cache) [MChar.other 1] ≤ 1 :=
  (downloadRace_contract
    { fileExists := fun _ => false, decodeOk := fun _ => false,
      localImage := fun _ => 0, resolve := fun u => u }
    [MChar.other 1]
    [CacheOp.downloaded true 3 [MChar.other 1],
     CacheOp.downloaded true 4 [MChar.other 1],
     CacheOp.resolve [MChar.other 1]]
    { doc := [], cache := [], resources := [], modified := false,
      enablePreview := true, isPreviewing := false, requestCearBlocks := false,
      requestRefreshBlocks := false, timerActive := false,
      downloads := [], decodes := [] }
    rfl (by decide)).1

/-! Claim C9: the scanning guard is always released. -/

theorem clearAllLoop_state (s : PState) (atStart : Bool) (todo : List Block) :
    (clearAllLoop s atStart todo).1 = s := by
  induction todo generalizing s atStart with
  | nil => rfl
  | cons b rest ih =>
    rw [clearAllLoop]
    by_cases hb : isImagePreviewBlock b = true
    · rw [if_pos hb]
      cases atStart with
      | false =>
        rw [if_neg (by simp)]
        rw [removeBlockState_eq]
        exact ih s false
      | true =>
        rw [if_pos rfl]
        show (clearAllLoop (removeBlockState s) false rest).1 = s
        rw [removeBlockState_eq]
        exact ih s false
    · rw [if_neg hb]
      show (clearAllLoop (clearCorruptedImagePreviewBlock s b).2 false rest).1 = s
      rw [clearCorrupted_snd]
      exact ih s false

/-- `clearAllImagePreviewBlocks` only rewrites the document: the walk never
touches the engine state (`removeBlock` and the cleanup restore the modified
flag and change nothing else) and the final `setModified(modified)` restores
the saved flag. -/
theorem clearAll_eq (s : PState) :
    clearAllImagePreviewBlocks s = { s with doc := (clearAllLoop s true s.doc).2 } := by
  show { (clearAllLoop s true s.doc).1 with
           doc := (clearAllLoop s true s.doc).2, modified := s.modified } =
       { s with doc := (clearAllLoop s true s.doc).2 }
  rw [clearAllLoop_state]

theorem disable_isPreviewing (s : PState) (h : s.isPreviewing = false) :
    (disableImagePreview s).isPreviewing = false := by
  rw [disableImagePreview, if_neg (by simp [h])]
  rw [clearAll_eq]
  exact h

theorem refresh_fields (s : PState) (h : s.isPreviewing = false) :
    (refresh s).isPreviewing = false
    ∧ (refresh s).requestCearBlocks = s.requestCearBlocks
    ∧ (refresh s).requestRefreshBlocks = s.requestRefreshBlocks := by
  rw [refresh, if_neg (by simp [h])]
  refine ⟨?_, ?_, ?_⟩
  · show (clearAllImagePreviewBlocks
      { s with timerActive := false, cache := [] }).isPreviewing = false
    rw [clearAll_eq]
    exact h
  · show (clearAllImagePreviewBlocks
      { s with timerActive := false, cache := [] }).requestCearBlocks = s.requestCearBlocks
    rw [clearAll_eq]
  · show (clearAllImagePreviewBlocks
      { s with timerActive := false, cache := [] }).requestRefreshBlocks
        = s.requestRefreshBlocks
    rw [clearAll_eq]

/-- The epilogue of `previewImages` (servicing of the two latched requests)
releases both latches and keeps the guard down. -/
theorem epilogue_guard (t : PState) (h : t.isPreviewing = false) (u : PState)
    (hu : u = (if t.requestCearBlocks then
        clearAllImagePreviewBlocks { t with requestCearBlocks := false } else t)) :
    (if u.requestRefreshBlocks then
        refresh { u with requestRefreshBlocks := false } else u).isPreviewing = false
    ∧ (if u.requestRefreshBlocks then
        refresh { u with requestRefreshBlocks := false } else u).requestCearBlocks = false
    ∧ (if u.requestRefreshBlocks then
        refresh { u with requestRefreshBlocks := false } else u).requestRefreshBlocks
          = false := by
  have hup : u.isPreviewing = false := by
    rw [hu]
    by_cases hc : t.requestCearBlocks = true
    · rw [if_pos hc, clearAll_eq]
      exact h
    · rw [if_neg hc]
      exact h
  have huc : u.requestCearBlocks = false := by
    rw [hu]
    by_cases hc : t.requestCearBlocks = true
    · rw [if_pos hc, clearAll_eq]
    · rw [if_neg hc]
      exact Bool.eq_false_iff.2 hc
  by_cases hr : u.requestRefreshBlocks = true
  · rw [if_pos hr]
    have hp2 : ({ u with requestRefreshBlocks := false } : PState).isPreviewing
        = false := hup
    obtain ⟨g1, g2, g3⟩ := refresh_fields { u with requestRefreshBlocks := false } hp2
    exact ⟨g1, g2.trans huc, g3⟩
  · rw [if_neg hr]
    exact ⟨hup, huc, Bool.eq_false_iff.2 hr⟩

/-- After any non-re-entrant run of `previewImages` the guard is down and
both latches are released. -/
theorem previewImages_guard (env : Env) (s : PState) (h : s.isPreviewing = false) :
    (previewImages env s).isPreviewing = false
    ∧ (previewImages env s).requestCearBlocks = false
    ∧ (previewImages env s).requestRefreshBlocks = false := by
  rw [previewImages, if_neg (by simp [h])]
  exact epilogue_guard
    { (scanCore env { s with isPreviewing := true } none s.doc).1 with
        doc := (scanCore env { s with isPreviewing := true } none s.doc).2,
        isPreviewing := false }
    rfl _ rfl

/-- Claim C9: whenever `previewImages` returns, the scanning guard
`m_isPreviewing` is false and both pending-request latches are false; and no
engine operation — disable, enable, refresh, content-change handling, download
completion, the timer tick — leaves the guard up, so a re-entrant no-op never
permanently blocks future scans. -/
theorem scanningGuard_contract (env : Env) (g : Bool) (cr ca : Nat) (ok : Bool)
    (img : Nat) (url : List MChar) (s : PState) (h : s.isPreviewing = false) :
    (previewImages env s).isPreviewing = false
    ∧ (previewImages env s).requestCearBlocks = false
    ∧ (previewImages env s).requestRefreshBlocks = false
    ∧ (disableImagePreview s).isPreviewing = false
    ∧ (enableImagePreview g s).isPreviewing = false
    ∧ (refresh s).isPreviewing = false
    ∧ (handleContentChange cr ca s).isPreviewing = false
    ∧ (imageDownloaded s ok img url).isPreviewing = false
    ∧ (timerTimeout env g s).isPreviewing = false := by
  obtain ⟨p1, p2, p3⟩ := previewImages_guard env s h
  refine ⟨p1, p2, p3, disable_isPreviewing s h, ?_, (refresh_fields s h).1, ?_, ?_, ?_⟩
  · cases g with
    | false => simpa [enableImagePreview] using h
    | true => simpa [enableImagePreview] using h
  · rw [handleContentChange]
    split
    · exact h
    · exact h
  · cases ok with
    | false => simpa [imageDownloaded] using h
    | true =>
      cases hl : cacheLookup s.cache url with
      | some v => simpa [imageDownloaded, hl] using h
      | none => simpa [imageDownloaded, hl] using h
  · cases g with
    | false =>
      cases he : s.enablePreview with
      | true =>
        have ht : timerTimeout env false s = disableImagePreview s := by
          simp [timerTimeout, he]
        rw [ht]
        exact disable_isPreviewing s h
      | false => simpa [timerTimeout, he] using h
    | true =>
      cases he : s.enablePreview with
      | false => simpa [timerTimeout, he] using h
      | true =>
        have ht : timerTimeout env true s = previewImages env s := by
          simp [timerTimeout, he]
        rw [ht]
        exact p1

/-- Witness for `scanningGuard_contract`: a concrete state with both latches
set going through a scan comes out with the guard down and the latches
cleared. -/
theorem scanningGuard_contract_witness :
    (previewImages
        { fileExists := fun _ => false, decodeOk := fun _ => false,
          localImage := fun _ => 0, resolve := fun u => u }
        { doc := [{ text := [MChar.other 7], fmt := none }], cache := [],
          resources := [], modified := false, enablePreview := true,
          isPreviewing := false, requestCearBlocks := true,
          requestRefreshBlocks := true, timerActive := false,
          downloads := [], decodes := [] }).isPreviewing = false
    ∧ (previewImages
        { fileExists := fun _ => false, decodeOk := fun _ => false,
          localImage := fun _ => 0, resolve := fun u => u }
        { doc := [{ text := [MChar.other 7], fmt := none }], cache := [],
          resources := [], modified := false, enablePreview := true,
          isPreviewing := false, requestCearBlocks := true,
          requestRefreshBlocks := true, timerActive := false,
          downloads := [], decodes := [] }).requestCearBlocks = false
    ∧ (previewImages
        { fileExists := fun _ => false, decodeOk := fun _ => false,
          localImage := fun _ => 0, resolve := fun u => u }
        { doc := [{ text := [MChar.other 7], fmt := none }], cache := [],
          resources := [], modified := false, enablePreview := true,
          isPreviewing := false, requestCearBlocks := true,
          requestRefreshBlocks := true, timerActive := false,
          downloads := [], decodes := [] }).requestRefreshBlocks = false :=
  have hall := scanningGuard_contract
    { fileExists := fun _ => false, decodeOk := fun _ => false,
      localImage := fun _ => 0, resolve := fun u => u }
    true 0 1 true 2 [MChar.other 3]
    { doc := [{ text := [MChar.other 7], fmt := none }], cache := [],
      resources := [], modified := false, enablePreview := true,
      isPreviewing := false, requestCearBlocks := true,
      requestRefreshBlocks := true, timerActive := false,
      downloads := [], decodes := [] }
    rfl
  ⟨hall.1, hall.2.1, hall.2.2.1⟩

/-! Claim C4: disabling mid-scan defers the cleanup to the end of the scan. -/

theorem scanCoreN_flags (env : Env) (n : Nat) :
    ∀ (s : PState) (prev : Option Block) (todo : List Block),
      FlagsEq s (scanCoreN env n s prev todo).st := by
  induction n with
  | zero => intro s prev todo; exact flagsEq_refl s
  | succ n ih =>
    intro s prev todo
    match todo with
    | [] => exact flagsEq_refl s
    | b :: rest =>
      cases he : s.enablePreview with
      | false =>
        have hoff : scanCoreN env (n + 1) s prev (b :: rest)
            = { st := s, prev := prev, emitted := [], todo := b :: rest } := by
          simp [scanCoreN, he]
        rw [hoff]
        exact flagsEq_refl s
      | true =>
      cases hb : isImagePreviewBlock b with
      | true =>
        cases hv : isValidImagePreviewBlock env prev b with
        | true =>
          simp only [scanCoreN, he, hb, hv]
          simp
          exact ih s (some b) rest
        | false =>
          cases prev with
          | none =>
            simp only [scanCoreN, he, hb, hv]
            simp
            exact ih (removeBlockState s) (some emptyBlock) rest
          | some q =>
            simp only [scanCoreN, he, hb, hv]
            simp
            exact ih (removeBlockState s) (some q) rest
      | false =>
        obtain ⟨b2, hc⟩ : ∃ b2, clearCorruptedImagePreviewBlock s b = (b2, s) :=
          ⟨_, clearCorrupted_eq s b⟩
        rcases Decidable.em (fetchImagePathToPreview env b2.text = []) with hpath | hpath
        · simp only [scanCoreN, he, hb, hc, hpath]
          simp
          exact ih s (some b2) rest
        · match rest with
          | [] =>
            obtain ⟨o, s2, hins⟩ : ∃ o s2, insertImagePreviewBlock env s
                (fetchImagePathToPreview env b2.text) = (o, s2) := ⟨_, _, rfl⟩
            have hf : FlagsEq s s2 := by
              have hf0 := insert_flags env s (fetchImagePathToPreview env b2.text)
              rw [hins] at hf0
              exact hf0
            cases o with
            | some ab =>
              have hgoal : scanCoreN env (n + 1) s prev [b]
                  = { st := s2, prev := some ab, emitted := [b2, ab], todo := [] } := by
                simp [scanCoreN, he, hb, hc, hpath, hins]
              rw [hgoal]
              exact hf
            | none =>
              have hgoal : scanCoreN env (n + 1) s prev [b]
                  = { st := s2, prev := some b2, emitted := [b2], todo := [] } := by
                simp [scanCoreN, he, hb, hc, hpath, hins]
              rw [hgoal]
              exact hf
          | nb :: rest2 =>
            cases hnb : isImagePreviewBlock nb with
            | true =>
              obtain ⟨o, s2, hu⟩ : ∃ o s2, updateImagePreviewBlock env s nb
                  (fetchImagePathToPreview env b2.text) = (o, s2) := ⟨_, _, rfl⟩
              have hf : FlagsEq s s2 := by
                have hf0 := update_flags env s nb (fetchImagePathToPreview env b2.text)
                rw [hu] at hf0
                exact hf0
              cases o with
              | some nb2 =>
                simp only [scanCoreN, he, hb, hc, hpath, hnb, hu]
                simp
                exact flagsEq_trans hf (ih s2 (some nb2) rest2)
              | none =>
                simp only [scanCoreN, he, hb, hc, hpath, hnb, hu]
                simp
                exact flagsEq_trans hf (ih s2 (some b2) rest2)
            | false =>
              obtain ⟨o, s2, hins⟩ : ∃ o s2, insertImagePreviewBlock env s
                  (fetchImagePathToPreview env b2.text) = (o, s2) := ⟨_, _, rfl⟩
              have hf : FlagsEq s s2 := by
                have hf0 := insert_flags env s (fetchImagePathToPreview env b2.text)
                rw [hins] at hf0
                exact hf0
              cases o with
              | some ab =>
                simp only [scanCoreN, he, hb, hc, hpath, hnb, hins]
                simp
                exact flagsEq_trans hf (ih s2 (some ab) (nb :: rest2))
              | none =>
                simp only [scanCoreN, he, hb, hc, hpath, hnb, hins]
                simp
                exact flagsEq_trans hf (ih s2 (some b2) (nb :: rest2))

theorem clearAllLoop_no_artifact (s : PState) (atStart : Bool) (todo : List Block) :
    ∀ x ∈ (clearAllLoop s atStart todo).2, isImagePreviewBlock x = false := by
  induction todo generalizing s atStart with
  | nil =>
    intro x hx
    cases hx
  | cons b rest ih =>
    intro x hx
    rw [clearAllLoop] at hx
    by_cases hb : isImagePreviewBlock b = true
    · rw [if_pos hb] at hx
      cases atStart with
      | true =>
        rw [if_pos rfl] at hx
        have hx2 : x ∈ emptyBlock :: (clearAllLoop (removeBlockState s) false rest).2 := hx
        rcases List.mem_cons.1 hx2 with hxe | hxm
        · rw [hxe]
          exact emptyBlock_not_artifact
        · exact ih (removeBlockState s) false x hxm
      | false =>
        rw [if_neg (by simp)] at hx
        exact ih (removeBlockState s) false x hx
    · rw [if_neg hb] at hx
      have hx2 : x ∈ (clearCorruptedImagePreviewBlock s b).1 ::
          (clearAllLoop (clearCorruptedImagePreviewBlock s b).2 false rest).2 := hx
      rcases List.mem_cons.1 hx2 with hxe | hxm
      · rw [hxe]
        exact clearCorrupted_not_artifact s (Bool.eq_false_iff.2 hb)
      · exact ih (clearCorruptedImagePreviewBlock s b).2 false x hxm

/-- Claim C4: a `disableImagePreview` call arriving while a scan is in flight
removes nothing itself — it only drops the enable flag and latches the clear
request — and once the interrupted scan reaches its epilogue the latched clear
runs, leaving a document with no image preview block and the latch released. -/
theorem disableMidScan_contract (env : Env) (n : Nat) (s : PState)
    (h1 : s.isPreviewing = false) (h2 : s.requestRefreshBlocks = false) :
    (∀ t : PState, t.isPreviewing = true →
        (disableImagePreview t).doc = t.doc
        ∧ (disableImagePreview t).requestCearBlocks = true)
    ∧ (∀ x ∈ (previewImagesWithDisableAfter env n s).doc,
        isImagePreviewBlock x = false)
    ∧ (previewImagesWithDisableAfter env n s).requestCearBlocks = false := by
  have hlatch : ∀ t : PState, t.isPreviewing = true →
      disableImagePreview t =
        { t with enablePreview := false, requestCearBlocks := true } := by
    intro t ht
    simp [disableImagePreview, ht]
  have hm := scanCoreN_flags env n { s with isPreviewing := true } none s.doc
  have hmp : (scanCoreN env n { s with isPreviewing := true } none s.doc).st.isPreviewing
      = true := hm.2.1
  have hmr : (scanCoreN env n { s with isPreviewing := true } none
      s.doc).st.requestRefreshBlocks = false := hm.2.2.2.1.trans h2
  have hdis : disableImagePreview
        (scanCoreN env n { s with isPreviewing := true } none s.doc).st
      = { (scanCoreN env n { s with isPreviewing := true } none s.doc).st with
          enablePreview := false, requestCearBlocks := true } :=
    hlatch _ hmp
  have hoff : scanCore env
      { (scanCoreN env n { s with isPreviewing := true } none s.doc).st with
        enablePreview := false, requestCearBlocks := true }
      (scanCoreN env n { s with isPreviewing := true } none s.doc).prev
      (scanCoreN env n { s with isPreviewing := true } none s.doc).todo
      = ({ (scanCoreN env n { s with isPreviewing := true } none s.doc).st with
           enablePreview := false, requestCearBlocks := true },
         (scanCoreN env n { s with isPreviewing := true } none s.doc).todo) :=
    scanCore_off env _ _ _ rfl
  refine ⟨fun t ht => ?_, ?_, ?_⟩
  · rw [hlatch t ht]
    exact ⟨rfl, rfl⟩
  · intro x hx
    simp only [previewImagesWithDisableAfter] at hx
    rw [if_neg (by simp [h1])] at hx
    rw [hdis] at hx
    rw [hoff] at hx
    simp [clearAll_eq, hmr] at hx
    exact clearAllLoop_no_artifact _ _ _ x hx
  · simp only [previewImagesWithDisableAfter]
    rw [if_neg (by simp [h1])]
    rw [hdis]
    rw [hoff]
    simp [clearAll_eq, hmr]

/-- Witness for `disableMidScan_contract`: a one-source-block document scanned
with the disable signal arriving after the first iteration ends with the
clear latch released. -/
theorem disableMidScan_contract_witness :
    (previewImagesWithDisableAfter
        { fileExists := fun _ => true, decodeOk := fun _ => true,
          localImage := fun _ => 5, resolve := fun u => u }
        1
        { doc := [{ text := [MChar.bang, MChar.lbrack, MChar.rbrack, MChar.lparen,
                             MChar.other 9, MChar.rparen], fmt := none }],
          cache := [], resources := [], modified := false, enablePreview := true,
          isPreviewing := false, requestCearBlocks := false,
          requestRefreshBlocks := false, timerActive := false,
          downloads := [], decodes := [] }).requestCearBlocks = false :=
  (disableMidScan_contract
    { fileExists := fun _ => true, decodeOk := fun _ => true,
      localImage := fun _ => 5, resolve := fun u => u }
    1
    { doc := [{ text := [MChar.bang, MChar.lbrack, MChar.rbrack, MChar.lparen,
                         MChar.other 9, MChar.rparen], fmt := none }],
      cache := [], resources := [], modified := false, enablePreview := true,
      isPreviewing := false, requestCearBlocks := false,
      requestRefreshBlocks := false, timerActive := false,
      downloads := [], decodes := [] }
    rfl rfl).2.2

end VPreview
